import Mathlib

/-!
Verification of the decision-tracking and merge engine of the
`fls_tools` standards pipeline (Python sources under `tools/src/fls_tools`).

Each Python module that the claims touch is embedded as a Lean namespace:

* `MergeTool`     — `standards/verification/merge.py`
* `ValidateTool`  — `standards/validation/decisions.py`
* `ReviewTool`    — `standards/analysis/review.py`
* `RecordTool`    — `standards/analysis/record.py`
* `ReportsTool`   — `standards/analysis/reports.py`
* `ExtractTool`   — `standards/analysis/extract.py`

JSON objects are embedded as structures holding exactly the fields the
modelled functions read; fields whose JSON value may be `null` or absent are
`Option` (Python `dict.get` semantics, with `null` and "key absent"
conflated).  Python dicts that the code iterates / mutates are embedded as
association lists in insertion order; `assocFind`/`assocSet` below mirror
dict lookup and `d[k] = v` assignment.
-/

set_option linter.unusedVariables false

/-- Python truthiness of an optional string: `None` and `""` are falsy. -/
def truthyStr : Option String → Bool
  | none => false
  | some s => !(s == "")

section AssocHelpers

variable {κ : Type} {α : Type} [DecidableEq κ]

/-- Dict lookup on an insertion-ordered association list (first match). -/
def assocFind : List (κ × α) → κ → Option α
  | [], _ => none
  | p :: ps, k => if p.1 = k then some p.2 else assocFind ps k

/-- Python `k in d`. -/
def assocContains (l : List (κ × α)) (k : κ) : Bool :=
  (assocFind l k).isSome

/-- Replace the value at an existing key in place. -/
def assocUpdate (l : List (κ × α)) (k : κ) (f : α → α) : List (κ × α) :=
  l.map (fun p => if p.1 = k then (p.1, f p.2) else p)

/-- Python `d[k] = v`: overwrite in place when the key exists, else append. -/
def assocSet (l : List (κ × α)) (k : κ) (v : α) : List (κ × α) :=
  if assocContains l k then l.map (fun p => if p.1 = k then (k, v) else p)
  else l ++ [(k, v)]

@[simp] theorem assocFind_nil (k : κ) : assocFind ([] : List (κ × α)) k = none := rfl

@[simp] theorem assocFind_cons (p : κ × α) (ps : List (κ × α)) (k : κ) :
    assocFind (p :: ps) k = if p.1 = k then some p.2 else assocFind ps k := rfl

theorem assocFind_append (l₁ l₂ : List (κ × α)) (k : κ) :
    assocFind (l₁ ++ l₂) k =
      match assocFind l₁ k with
      | some v => some v
      | none => assocFind l₂ k := by
  induction l₁ with
  | nil => simp
  | cons p ps ih =>
    by_cases h : p.1 = k <;> simp [h, ih]

theorem assocFind_mapReplace_self (l : List (κ × α)) (k : κ) (v : α)
    (h : (assocFind l k).isSome = true) :
    assocFind (l.map (fun p => if p.1 = k then (k, v) else p)) k = some v := by
  induction l with
  | nil => simp [assocFind] at h
  | cons p ps ih =>
    by_cases hp : p.1 = k
    · simp [hp]
    · simp only [assocFind_cons, hp, if_false] at h
      simpa [hp] using ih h

theorem assocFind_mapReplace_other (l : List (κ × α)) (k k' : κ) (v : α) (h : k' ≠ k) :
    assocFind (l.map (fun p => if p.1 = k then (k, v) else p)) k' = assocFind l k' := by
  induction l with
  | nil => simp
  | cons p ps ih =>
    by_cases hp : p.1 = k
    · simp [hp, Ne.symm h, ih]
    · by_cases hp' : p.1 = k' <;> simp [hp, hp', ih, h]

theorem assocFind_assocSet_self (l : List (κ × α)) (k : κ) (v : α) :
    assocFind (assocSet l k v) k = some v := by
  unfold assocSet assocContains
  by_cases h : (assocFind l k).isSome = true
  · simp only [h, if_true]
    exact assocFind_mapReplace_self l k v h
  · have h' : (assocFind l k).isSome = false := by simpa using h
    simp only [h', Bool.false_eq_true, if_false]
    rw [assocFind_append]
    have hnone : assocFind l k = none := by
      cases hf : assocFind l k with
      | none => rfl
      | some v' => rw [hf] at h'; simp at h'
    simp [hnone]

theorem assocFind_assocSet_other (l : List (κ × α)) (k k' : κ) (v : α) (h : k' ≠ k) :
    assocFind (assocSet l k v) k' = assocFind l k' := by
  unfold assocSet assocContains
  by_cases hc : (assocFind l k).isSome = true
  · simp only [hc, if_true]
    exact assocFind_mapReplace_other l k k' v h
  · have h' : (assocFind l k).isSome = false := by simpa using hc
    simp only [h', Bool.false_eq_true, if_false]
    rw [assocFind_append]
    cases hf : assocFind l k' with
    | none => simp [assocFind, Ne.symm h]
    | some v' => simp

/-- After setting every key of `ctxs` (to the same value `v`), every key of
`ctxs` looks up to `v`. -/
theorem assocFind_foldl_assocSet (ctxs : List κ) (v : α) :
    ∀ (d : List (κ × α)) (k : κ), k ∈ ctxs →
      assocFind (ctxs.foldl (fun d c => assocSet d c v) d) k = some v := by
  induction ctxs with
  | nil => intro d k hk; simp at hk
  | cons c cs ih =>
    intro d k hk
    simp only [List.foldl_cons]
    by_cases hmem : k ∈ cs
    · exact ih _ k hmem
    · have hkc : k = c := by
        rcases List.mem_cons.mp hk with h | h
        · exact h
        · exact absurd h hmem
      subst hkc
      have hstable : ∀ (cs' : List κ) (d' : List (κ × α)), k ∉ cs' →
          assocFind (cs'.foldl (fun d c => assocSet d c v) d') k = assocFind d' k := by
        intro cs'
        induction cs' with
        | nil => intro d' _; rfl
        | cons c' cs'' ih' =>
          intro d' hnot
          simp only [List.foldl_cons]
          rw [ih' _ (fun h => hnot (List.mem_cons_of_mem _ h))]
          exact assocFind_assocSet_other _ _ _ _ (fun h => hnot (h ▸ List.mem_cons_self _ _))
      rw [hstable cs _ hmem]
      exact assocFind_assocSet_self d k v

theorem assocFind_eq_none_iff (l : List (κ × α)) (k : κ) :
    assocFind l k = none ↔ k ∉ l.map Prod.fst := by
  induction l with
  | nil => simp
  | cons p ps ih =>
    by_cases hp : p.1 = k
    · simp [hp]
    · rw [assocFind_cons, if_neg hp, ih, List.map_cons]
      constructor
      · intro hn hmem
        rcases List.mem_cons.mp hmem with h1 | h1
        · exact hp h1.symm
        · exact hn h1
      · intro hn h1
        exact hn (List.mem_cons_of_mem _ h1)

theorem mem_of_assocFind_eq_some (l : List (κ × α)) (k : κ) (a : α)
    (h : assocFind l k = some a) : (k, a) ∈ l := by
  induction l with
  | nil => simp [assocFind] at h
  | cons p ps ih =>
    rw [assocFind_cons] at h
    split_ifs at h with hp
    · injection h with h2
      exact List.mem_cons.mpr (Or.inl (by cases p; simp_all))
    · exact List.mem_cons.mpr (Or.inr (ih h))

theorem assocFind_eq_some_of_mem (l : List (κ × α)) (k : κ) (a : α)
    (hnd : (l.map Prod.fst).Nodup) (h : (k, a) ∈ l) : assocFind l k = some a := by
  induction l with
  | nil => simp at h
  | cons p ps ih =>
    rw [List.map_cons, List.nodup_cons] at hnd
    rcases List.mem_cons.mp h with h1 | h1
    · subst h1
      simp [assocFind]
    · have hk : p.1 ≠ k := by
        intro he
        apply hnd.1
        rw [he]
        exact List.mem_map.mpr ⟨(k, a), h1, rfl⟩
      rw [assocFind_cons, if_neg hk]
      exact ih hnd.2 h1

theorem keys_assocSet (l : List (κ × α)) (k : κ) (v : α) :
    (assocSet l k v).map Prod.fst =
      if assocContains l k then l.map Prod.fst else l.map Prod.fst ++ [k] := by
  unfold assocSet
  by_cases h : assocContains l k
  · rw [if_pos h, if_pos h, List.map_map]
    apply List.map_congr_left
    intro p _
    by_cases hpk : p.1 = k
    · simp [Function.comp, hpk]
    · simp [Function.comp, hpk]
  · rw [if_neg h, if_neg h, List.map_append]
    rfl

theorem keys_nodup_assocSet (l : List (κ × α)) (k : κ) (v : α)
    (h : (l.map Prod.fst).Nodup) : ((assocSet l k v).map Prod.fst).Nodup := by
  rw [keys_assocSet]
  by_cases hc : assocContains l k
  · rwa [if_pos hc]
  · rw [if_neg hc]
    have hnone : assocFind l k = none := by
      unfold assocContains at hc
      cases hf : assocFind l k with
      | none => rfl
      | some a => rw [hf] at hc; simp at hc
    have hk : k ∉ l.map Prod.fst := (assocFind_eq_none_iff l k).mp hnone
    simp [List.nodup_append, h, hk]

end AssocHelpers

/-- In-place modification of the `i`-th element of a list (Python
`xs[i] = f(xs[i])`; out-of-range indices never occur in the modelled code). -/
def modifyAt {α : Type} (f : α → α) : Nat → List α → List α
  | _, [] => []
  | 0, a :: as => f a :: as
  | n + 1, a :: as => a :: modifyAt f n as

@[simp] theorem modifyAt_nil {α : Type} (f : α → α) (n : Nat) :
    modifyAt f n ([] : List α) = [] := by cases n <;> rfl

@[simp] theorem length_modifyAt {α : Type} (f : α → α) (n : Nat) (l : List α) :
    (modifyAt f n l).length = l.length := by
  induction l generalizing n with
  | nil => simp
  | cons a as ih =>
    cases n with
    | zero => simp [modifyAt]
    | succ m => simp [modifyAt, ih]

theorem getElem?_modifyAt {α : Type} (f : α → α) (n : Nat) (l : List α) (p : Nat) :
    (modifyAt f n l)[p]? = if p = n then l[p]?.map f else l[p]? := by
  induction l generalizing n p with
  | nil => simp
  | cons a as ih =>
    cases n with
    | zero =>
      cases p with
      | zero => simp [modifyAt]
      | succ q => simp [modifyAt]
    | succ m =>
      cases p with
      | zero => simp [modifyAt]
      | succ q => simpa [modifyAt] using ih m q

theorem map_modifyAt {α β : Type} (f : α → α) (g : α → β) (n : Nat) (l : List α)
    (h : ∀ a, g (f a) = g a) :
    (modifyAt f n l).map g = l.map g := by
  induction l generalizing n with
  | nil => simp
  | cons a as ih =>
    cases n with
    | zero => simp [modifyAt, h]
    | succ m => simp [modifyAt, ih]

/-- The boolean flag record computed per guideline by the flag engine
(`compute_flags`).  All tools read these ten keys. -/
structure Flags where
  fls_removed : Bool
  fls_added : Bool
  rationale_type_changed : Bool
  applicability_differs_from_add6 : Bool
  adjusted_category_differs_from_add6 : Bool
  specificity_decreased : Bool
  batch_pattern_outlier : Bool
  missing_analysis_summary : Bool
  missing_search_tools : Bool
  multi_dimension_outlier : Bool
deriving DecidableEq

namespace MergeTool

/-! ## Embedding of `standards/verification/merge.py` -/

/-- One entry of `accepted_matches` / `rejected_matches` in a decision file.
The merge tool copies these lists opaquely; the validator reads `fls_id` and
`reason` (both may be `null`/absent). -/
structure DecisionMatch where
  fls_id : Option String
  reason : Option String
deriving DecidableEq

/-- A `proposed_applicability_change` object.  The four fields are accessed
with `[...]` in the source (required keys). -/
structure ProposedChange where
  field : String
  current_value : String
  proposed_value : String
  rationale : String
deriving DecidableEq

/-- A parsed per-guideline decision file (the fields the tools read). -/
structure Decision where
  guideline_id : Option String
  decision : Option String
  confidence : Option String
  fls_rationale_type : Option String
  accepted_matches : List DecisionMatch
  rejected_matches : List DecisionMatch
  notes : Option String
  proposed_applicability_change : Option ProposedChange
deriving DecidableEq

/-- The `verification_decision` object built by `merge_decisions_into_report`.
`proposed_applicability_change` is only added to the dict when the decision
carries one, which coincides with the `Option` value. -/
structure VerificationDecision where
  decision : Option String
  confidence : Option String
  fls_rationale_type : Option String
  accepted_matches : List DecisionMatch
  rejected_matches : List DecisionMatch
  notes : Option String
  proposed_applicability_change : Option ProposedChange
deriving DecidableEq

/-- One entry of the report's `guidelines` array.  `extra` stands for all
fields of the JSON object that the merge tool never touches. -/
structure Guideline where
  guideline_id : Option String
  verification_decision : Option VerificationDecision
  extra : Nat
deriving DecidableEq

/-- One entry of the report's top-level `applicability_changes` array. -/
structure AppChange where
  guideline_id : String
  field : String
  current_value : String
  proposed_value : String
  rationale : String
  approved : Option Bool
deriving DecidableEq

/-- The `summary` object written by `update_summary`. -/
structure Summary where
  total_guidelines : Nat
  verified_count : Nat
  applicability_changes_proposed : Nat
  applicability_changes_approved : Nat
deriving DecidableEq

/-- A batch report.  `extra` stands for the fields the merge tool never
touches (`batch_id`, `session_id`, ...). -/
structure Report where
  guidelines : List Guideline
  applicability_changes : List AppChange
  summary : Option Summary
  extra : Nat
deriving DecidableEq

/-- The dedup key of an applicability change: `(guideline_id, field)`. -/
def keyOf (c : AppChange) : String × String := (c.guideline_id, c.field)

/-- Index lookup in the `existing_changes` dict.  The most recent binding is
kept at the front, so first match = Python's last-write-wins. -/
def lookupIdx : List ((String × String) × Nat) → (String × String) → Option Nat
  | [], _ => none
  | p :: ps, k => if p.1 = k then some p.2 else lookupIdx ps k

/-- `{(c.guideline_id, c.field): i for i, c in enumerate(changes)}` —
enumerate keys from index `i₀`, later duplicates shadowing earlier ones. -/
def bfkAux : Nat → List (String × String) → List ((String × String) × Nat)
  | _, [] => []
  | i, k :: ks => bfkAux (i + 1) ks ++ [(k, i)]

/-- The `existing_changes` dict built at the top of
`merge_decisions_into_report`. -/
def buildExisting (chs : List AppChange) : List ((String × String) × Nat) :=
  bfkAux 0 (chs.map keyOf)

/-- `find_guideline_index`: first index whose entry's `guideline_id` equals
the wanted id (scanning the `guideline_id` column). -/
def findGidIdxAux (gid : String) : Nat → List (Option String) → Option Nat
  | _, [] => none
  | i, g :: gs => if g = some gid then some i else findGidIdxAux gid (i + 1) gs

def find_guideline_index (report : Report) (guideline_id : String) : Option Nat :=
  findGidIdxAux guideline_id 0 (report.guidelines.map (·.guideline_id))

/-- Truthiness of a guideline entry for `verified_count`: the
`verification_decision` dict is present and its `decision` value is truthy. -/
def verifiedGuideline (g : Guideline) : Bool :=
  match g.verification_decision with
  | some vd => truthyStr vd.decision
  | none => false

/-- `update_summary`: recompute the report's `summary` object from scratch. -/
def update_summary (report : Report) : Report :=
  { report with
    summary := some
      { total_guidelines := report.guidelines.length
        verified_count := (report.guidelines.filter verifiedGuideline).length
        applicability_changes_proposed := report.applicability_changes.length
        applicability_changes_approved :=
          (report.applicability_changes.filter
            (fun c => decide (c.approved = some true))).length } }

/-- The `verification_decision` dict built from a decision file. -/
def build_verification_decision (d : Decision) : VerificationDecision :=
  { decision := d.decision
    confidence := d.confidence
    fls_rationale_type := d.fls_rationale_type
    accepted_matches := d.accepted_matches
    rejected_matches := d.rejected_matches
    notes := d.notes
    proposed_applicability_change := d.proposed_applicability_change }

/-- The `change_entry` dict appended/upserted into `applicability_changes`. -/
def mkChangeEntry (gid : String) (pc : ProposedChange) : AppChange :=
  { guideline_id := gid
    field := pc.field
    current_value := pc.current_value
    proposed_value := pc.proposed_value
    rationale := pc.rationale
    approved := none }

def setVd (vd : VerificationDecision) (g : Guideline) : Guideline :=
  { g with verification_decision := some vd }

/-- The loop state of `merge_decisions_into_report`. -/
structure MergeState where
  report : Report
  existing : List ((String × String) × Nat)
  merged : Nat
  skipped : Nat
  skipped_guidelines : List String
deriving DecidableEq

/-- One iteration of the merge loop over `decisions`. -/
def mergeStep (s : MergeState) (d : Decision) : MergeState :=
  match d.guideline_id with
  | none =>
    { s with skipped := s.skipped + 1
             skipped_guidelines := s.skipped_guidelines ++ ["(missing guideline_id)"] }
  | some gid =>
    if gid = "" then
      { s with skipped := s.skipped + 1
               skipped_guidelines := s.skipped_guidelines ++ ["(missing guideline_id)"] }
    else
      match find_guideline_index s.report gid with
      | none =>
        { s with skipped := s.skipped + 1
                 skipped_guidelines := s.skipped_guidelines ++ [gid] }
      | some idx =>
        let vd := build_verification_decision d
        let s1 :=
          match d.proposed_applicability_change with
          | none => s
          | some pc =>
            let entry := mkChangeEntry gid pc
            match lookupIdx s.existing (gid, pc.field) with
            | some i =>
              { s with report :=
                  { s.report with
                    applicability_changes := s.report.applicability_changes.set i entry } }
            | none =>
              { s with
                report :=
                  { s.report with
                    applicability_changes := s.report.applicability_changes ++ [entry] }
                existing :=
                  ((gid, pc.field), s.report.applicability_changes.length) :: s.existing }
        { s1 with
          report :=
            { s1.report with guidelines := modifyAt (setVd vd) idx s1.report.guidelines }
          merged := s1.merged + 1 }

/-- `merge_decisions_into_report`: returns the mutated report and
`(merged_count, skipped_count, skipped_guidelines)`. -/
def merge_decisions_into_report (report : Report) (decisions : List Decision) :
    Report × Nat × Nat × List String :=
  let s := decisions.foldl mergeStep
    { report := report
      existing := buildExisting report.applicability_changes
      merged := 0
      skipped := 0
      skipped_guidelines := [] }
  (s.report, s.merged, s.skipped, s.skipped_guidelines)

end MergeTool

namespace MergeTool

/-! ### Analysis of the merge loop

The loop is decomposed into two independent effects: the sequence of
`verification_decision` writes into `guidelines`, and the sequence of
upserts into `applicability_changes`.  Both depend on the initial report
only through the `guideline_id` column, which the loop never changes. -/

/-- The guideline index a decision writes to, if any (`None` for a skipped
decision: falsy `guideline_id`, or id not present in the report). -/
def dTarget (gids : List (Option String)) (d : Decision) : Option Nat :=
  match d.guideline_id with
  | none => none
  | some gid => if gid = "" then none else findGidIdxAux gid 0 gids

/-- The `skipped_guidelines` label of a skipped decision. -/
def skipLabel (d : Decision) : String :=
  match d.guideline_id with
  | none => "(missing guideline_id)"
  | some gid => if gid = "" then "(missing guideline_id)" else gid

/-- The sequence of `verification_decision` writes performed by the loop. -/
def vdWrites (gids : List (Option String)) (ds : List Decision) :
    List (Nat × VerificationDecision) :=
  ds.filterMap (fun d => (dTarget gids d).map (fun i => (i, build_verification_decision d)))

def applyVdWrites (ws : List (Nat × VerificationDecision)) (gs : List Guideline) :
    List Guideline :=
  ws.foldl (fun gs w => modifyAt (setVd w.2) w.1 gs) gs

/-- Last write (if any) to position `p` in a write sequence. -/
def lastWriteVd : List (Nat × VerificationDecision) → Nat → Option VerificationDecision
  | [], _ => none
  | w :: ws, p =>
    match lastWriteVd ws p with
    | some v => some v
    | none => if w.1 = p then some w.2 else none

/-- The sequence of `change_entry` upserts performed by the loop (one per
non-skipped decision that carries a `proposed_applicability_change`). -/
def chEvents (gids : List (Option String)) (ds : List Decision) : List AppChange :=
  ds.filterMap (fun d =>
    match d.guideline_id with
    | none => none
    | some gid =>
      if gid = "" then none
      else
        match findGidIdxAux gid 0 gids, d.proposed_applicability_change with
        | some _, some pc => some (mkChangeEntry gid pc)
        | _, _ => none)

/-- One upsert into `(applicability_changes, existing_changes)`. -/
def chStep (st : List AppChange × List ((String × String) × Nat)) (e : AppChange) :
    List AppChange × List ((String × String) × Nat) :=
  match lookupIdx st.2 (keyOf e) with
  | some i => (st.1.set i e, st.2)
  | none => (st.1 ++ [e], (keyOf e, st.1.length) :: st.2)

def chApply (evs : List AppChange)
    (st : List AppChange × List ((String × String) × Nat)) :
    List AppChange × List ((String × String) × Nat) :=
  evs.foldl chStep st

@[simp] theorem chApply_nil (st : List AppChange × List ((String × String) × Nat)) :
    chApply [] st = st := rfl

@[simp] theorem chApply_cons (e : AppChange) (evs : List AppChange)
    (st : List AppChange × List ((String × String) × Nat)) :
    chApply (e :: evs) st = chApply evs (chStep st e) := rfl

@[simp] theorem setVd_guideline_id (vd : VerificationDecision) (g : Guideline) :
    (setVd vd g).guideline_id = g.guideline_id := rfl

theorem map_gid_modifyAt_setVd (vd : VerificationDecision) (i : Nat) (gs : List Guideline) :
    (modifyAt (setVd vd) i gs).map (·.guideline_id) = gs.map (·.guideline_id) :=
  map_modifyAt _ _ _ _ (fun _ => rfl)

theorem applyVdWrites_map_gid (ws : List (Nat × VerificationDecision)) (gs : List Guideline) :
    (applyVdWrites ws gs).map (·.guideline_id) = gs.map (·.guideline_id) := by
  induction ws generalizing gs with
  | nil => rfl
  | cons w ws ih =>
    simp only [applyVdWrites, List.foldl_cons]
    rw [show (List.foldl (fun gs w => modifyAt (setVd w.2) w.1 gs)
          (modifyAt (setVd w.2) w.1 gs) ws) = applyVdWrites ws (modifyAt (setVd w.2) w.1 gs)
        from rfl]
    rw [ih, map_gid_modifyAt_setVd]

theorem applyVdWrites_length (ws : List (Nat × VerificationDecision)) (gs : List Guideline) :
    (applyVdWrites ws gs).length = gs.length := by
  have := congrArg List.length (applyVdWrites_map_gid ws gs)
  simpa using this

@[simp] theorem setVd_setVd (v v' : VerificationDecision) (g : Guideline) :
    setVd v' (setVd v g) = setVd v' g := rfl

theorem applyVdWrites_getElem? (ws : List (Nat × VerificationDecision))
    (gs : List Guideline) (p : Nat) :
    (applyVdWrites ws gs)[p]? =
      match lastWriteVd ws p with
      | some v => gs[p]?.map (setVd v)
      | none => gs[p]? := by
  induction ws generalizing gs with
  | nil => simp [applyVdWrites, lastWriteVd]
  | cons w ws ih =>
    have hstep : applyVdWrites (w :: ws) gs = applyVdWrites ws (modifyAt (setVd w.2) w.1 gs) :=
      rfl
    rw [hstep, ih]
    cases hlast : lastWriteVd ws p with
    | some v =>
      simp only [lastWriteVd, hlast]
      rw [getElem?_modifyAt]
      by_cases hp : p = w.1
      · subst hp
        rw [if_pos rfl, Option.map_map]
        rw [show setVd v ∘ setVd w.2 = setVd v from funext fun g => rfl]
      · simp [hp]
    | none =>
      simp only [lastWriteVd, hlast]
      rw [getElem?_modifyAt]
      by_cases hp : w.1 = p
      · subst hp
        simp
      · rw [if_neg hp, if_neg (fun h => hp h.symm)]

/-- Replaying the same write sequence is a no-op. -/
theorem applyVdWrites_idem (ws : List (Nat × VerificationDecision)) (gs : List Guideline) :
    applyVdWrites ws (applyVdWrites ws gs) = applyVdWrites ws gs := by
  apply List.ext_getElem?
  intro p
  simp only [applyVdWrites_getElem?]
  cases hlast : lastWriteVd ws p with
  | some v =>
    simp only [Option.map_map]
    rw [show setVd v ∘ setVd v = setVd v from funext fun g => rfl]
  | none => rfl

end MergeTool

namespace MergeTool

/-! ### Properties of the `existing_changes` dict -/

/-- Index of the last occurrence of `k` in a key list. -/
def lastIdxOf : List (String × String) → (String × String) → Option Nat
  | [], _ => none
  | k' :: ks, k =>
    match lastIdxOf ks k with
    | some j => some (j + 1)
    | none => if k' = k then some 0 else none

theorem lookupIdx_append (l₁ l₂ : List ((String × String) × Nat)) (k : String × String) :
    lookupIdx (l₁ ++ l₂) k =
      match lookupIdx l₁ k with
      | some i => some i
      | none => lookupIdx l₂ k := by
  induction l₁ with
  | nil => simp [lookupIdx]
  | cons p ps ih =>
    by_cases h : p.1 = k <;> simp [lookupIdx, h, ih]

theorem lookupIdx_bfkAux (ks : List (String × String)) :
    ∀ (i : Nat) (k : String × String),
      lookupIdx (bfkAux i ks) k = (lastIdxOf ks k).map (i + ·) := by
  induction ks with
  | nil => intro i k; simp [bfkAux, lookupIdx, lastIdxOf]
  | cons k' ks ih =>
    intro i k
    simp only [bfkAux]
    rw [lookupIdx_append, ih (i + 1) k]
    cases hl : lastIdxOf ks k with
    | some j =>
      simp only [Option.map_some, lastIdxOf, hl]
      have : i + 1 + j = i + (j + 1) := by omega
      simp [this]
    | none =>
      simp only [Option.map_none, lastIdxOf, hl]
      by_cases hk : k' = k <;> simp [lookupIdx, hk]

theorem lastIdxOf_bound (ks : List (String × String)) (k : String × String) (j : Nat)
    (h : lastIdxOf ks k = some j) : j < ks.length ∧ ks[j]? = some k := by
  induction ks generalizing j with
  | nil => simp [lastIdxOf] at h
  | cons k' ks ih =>
    simp only [lastIdxOf] at h
    cases hl : lastIdxOf ks k with
    | some j' =>
      rw [hl] at h
      cases h
      obtain ⟨hb, hg⟩ := ih j' hl
      exact ⟨by simpa using Nat.succ_lt_succ hb, by simpa using hg⟩
    | none =>
      rw [hl] at h
      by_cases hk : k' = k
      · rw [if_pos hk] at h
        cases h
        subst hk
        simp
      · rw [if_neg hk] at h
        cases h

theorem lastIdxOf_eq_none (ks : List (String × String)) (k : String × String) :
    lastIdxOf ks k = none ↔ ∀ k' ∈ ks, k' ≠ k := by
  induction ks with
  | nil => simp [lastIdxOf]
  | cons k' ks ih =>
    simp only [lastIdxOf]
    cases hl : lastIdxOf ks k with
    | some j =>
      constructor
      · intro h; cases h
      · intro h
        have hn : lastIdxOf ks k = none :=
          ih.mpr (fun x hx => h x (List.mem_cons_of_mem _ hx))
        rw [hl] at hn; cases hn
    | none =>
      have hks := ih.mp hl
      by_cases hk : k' = k
      · rw [if_pos hk]
        constructor
        · intro h; cases h
        · intro h; exact absurd hk (h k' (List.mem_cons_self _ _))
      · rw [if_neg hk]
        constructor
        · intro _ x hx
          rcases List.mem_cons.mp hx with rfl | hx'
          · exact hk
          · exact hks x hx'
        · intro _; rfl

/-- Append one key: the new key's last index is the old length. -/
theorem lastIdxOf_append_single (ks : List (String × String)) (k' k : String × String) :
    lastIdxOf (ks ++ [k']) k =
      if k' = k then some ks.length else lastIdxOf ks k := by
  induction ks with
  | nil => simp [lastIdxOf]
  | cons a ks ih =>
    by_cases hk : k' = k
    · subst hk
      simp [lastIdxOf, ih]
    · simp [lastIdxOf, ih, hk]

/-- `lookupBE chs = lookupIdx (buildExisting chs)`: the "ideal" dict of a
changes list, mapping each `(guideline_id, field)` key to the index of its
last occurrence. -/
def lookupBE (chs : List AppChange) (k : String × String) : Option Nat :=
  lookupIdx (buildExisting chs) k

theorem lookupBE_eq (chs : List AppChange) (k : String × String) :
    lookupBE chs k = lastIdxOf (chs.map keyOf) k := by
  unfold lookupBE buildExisting
  rw [lookupIdx_bfkAux]
  cases lastIdxOf (chs.map keyOf) k <;> simp

theorem lookupBE_some (chs : List AppChange) (k : String × String) (i : Nat)
    (h : lookupBE chs k = some i) :
    i < chs.length ∧ chs[i]?.map keyOf = some k := by
  rw [lookupBE_eq] at h
  obtain ⟨hb, hg⟩ := lastIdxOf_bound _ _ _ h
  rw [List.length_map] at hb
  refine ⟨hb, ?_⟩
  rw [List.getElem?_map] at hg
  exact hg

theorem lookupBE_none (chs : List AppChange) (k : String × String) :
    lookupBE chs k = none ↔ ∀ c ∈ chs, keyOf c ≠ k := by
  rw [lookupBE_eq, lastIdxOf_eq_none]
  constructor
  · intro h c hc
    exact h (keyOf c) (List.mem_map_of_mem _ hc)
  · intro h x hx
    obtain ⟨c, hc, rfl⟩ := List.mem_map.mp hx
    exact h c hc

/-- `lookupBE` depends only on the key column. -/
theorem lookupBE_congr (chs chs' : List AppChange)
    (h : chs.map keyOf = chs'.map keyOf) (k : String × String) :
    lookupBE chs k = lookupBE chs' k := by
  rw [lookupBE_eq, lookupBE_eq, h]

theorem lookupBE_append_single (chs : List AppChange) (e : AppChange) (k : String × String) :
    lookupBE (chs ++ [e]) k =
      if keyOf e = k then some chs.length else lookupBE chs k := by
  rw [lookupBE_eq, List.map_append, List.map_singleton, lastIdxOf_append_single,
    lookupBE_eq, List.length_map]

/-- Setting an entry whose key matches the key already at that index keeps
the key column unchanged. -/
theorem map_keyOf_set (chs : List AppChange) (i : Nat) (e : AppChange)
    (h : chs[i]?.map keyOf = some (keyOf e)) :
    (chs.set i e).map keyOf = chs.map keyOf := by
  rw [List.map_set]
  apply List.ext_getElem?
  intro p
  by_cases hp : p = i
  · subst hp
    have hmk : (chs.map keyOf)[p]? = some (keyOf e) := by
      rw [List.getElem?_map]; exact h
    rw [List.getElem?_set_self', hmk]
    rfl
  · rw [List.getElem?_set_ne (fun hh => hp hh.symm)]

end MergeTool

namespace MergeTool

/-- The `existing_changes` dict is consistent with the changes list: every
key looks up to the index of its last occurrence. -/
def ExInv (chs : List AppChange) (ex : List ((String × String) × Nat)) : Prop :=
  ∀ k, lookupIdx ex k = lookupBE chs k

theorem exInv_buildExisting (chs : List AppChange) : ExInv chs (buildExisting chs) :=
  fun _ => rfl

theorem chStep_inv {chs : List AppChange} {ex : List ((String × String) × Nat)}
    (e : AppChange) (hinv : ExInv chs ex) :
    ExInv (chStep (chs, ex) e).1 (chStep (chs, ex) e).2 := by
  cases hl : lookupIdx ex (keyOf e) with
  | some i =>
    have hbe : lookupBE chs (keyOf e) = some i := by rw [← hinv (keyOf e)]; exact hl
    have hkey : chs[i]?.map keyOf = some (keyOf e) := (lookupBE_some _ _ _ hbe).2
    simp only [chStep, hl]
    intro k
    rw [hinv k, lookupBE_congr chs (chs.set i e) (map_keyOf_set chs i e hkey).symm k]
  | none =>
    simp only [chStep, hl]
    intro k
    simp only [lookupIdx]
    rw [lookupBE_append_single]
    by_cases hk : keyOf e = k
    · rw [if_pos hk, if_pos hk]
    · rw [if_neg hk, if_neg hk, hinv k]

/-- Last upsert (if any) with a given key in an event sequence. -/
def lastEntry : List AppChange → (String × String) → Option AppChange
  | [], _ => none
  | e :: es, k =>
    match lastEntry es k with
    | some e' => some e'
    | none => if keyOf e = k then some e else none

theorem lastEntry_eq_none_iff (evs : List AppChange) (k : String × String) :
    lastEntry evs k = none ↔ ∀ e ∈ evs, keyOf e ≠ k := by
  induction evs with
  | nil => simp [lastEntry]
  | cons e es ih =>
    simp only [lastEntry]
    cases hl : lastEntry es k with
    | some e' =>
      constructor
      · intro h; cases h
      · intro h
        have hn : lastEntry es k = none :=
          ih.mpr (fun x hx => h x (List.mem_cons_of_mem _ hx))
        rw [hl] at hn; cases hn
    | none =>
      have hes := ih.mp hl
      by_cases hk : keyOf e = k
      · rw [if_pos hk]
        constructor
        · intro h; cases h
        · intro h; exact absurd hk (h e (List.mem_cons_self _ _))
      · rw [if_neg hk]
        constructor
        · intro _ x hx
          rcases List.mem_cons.mp hx with rfl | hx'
          · exact hk
          · exact hes x hx'
        · intro _; rfl

/-- Untouched keys: events with other keys change neither the key's index
nor the list entry it points at. -/
theorem chApply_stable (k : String × String) (evs : List AppChange) :
    ∀ (chs : List AppChange) (ex : List ((String × String) × Nat)),
      ExInv chs ex → (∀ e ∈ evs, keyOf e ≠ k) →
      lookupIdx (chApply evs (chs, ex)).2 k = lookupIdx ex k
      ∧ (∀ i, lookupIdx ex k = some i → (chApply evs (chs, ex)).1[i]? = chs[i]?) := by
  induction evs with
  | nil => intro chs ex _ _; exact ⟨rfl, fun i _ => rfl⟩
  | cons e es ih =>
    intro chs ex hinv hks
    have hek : keyOf e ≠ k := hks e (List.mem_cons_self _ _)
    have hes : ∀ x ∈ es, keyOf x ≠ k := fun x hx => hks x (List.mem_cons_of_mem _ hx)
    have hinv1 := chStep_inv e hinv
    rw [chApply_cons]
    cases hl : lookupIdx ex (keyOf e) with
    | some i₀ =>
      have hstep : chStep (chs, ex) e = (chs.set i₀ e, ex) := by
        simp [chStep, hl]
      rw [hstep] at hinv1 ⊢
      obtain ⟨h1, h2⟩ := ih (chs.set i₀ e) ex hinv1 hes
      refine ⟨h1, fun i hi => ?_⟩
      rw [h2 i hi]
      have hbe : lookupBE chs k = some i := by rw [← hinv k]; exact hi
      have hbe0 : lookupBE chs (keyOf e) = some i₀ := by rw [← hinv (keyOf e)]; exact hl
      have hkeyi : chs[i]?.map keyOf = some k := (lookupBE_some _ _ _ hbe).2
      have hkeyi0 : chs[i₀]?.map keyOf = some (keyOf e) := (lookupBE_some _ _ _ hbe0).2
      have hne : i₀ ≠ i := by
        intro hEq
        subst hEq
        rw [hkeyi0] at hkeyi
        exact hek (by injection hkeyi)
      rw [List.getElem?_set_ne hne]
    | none =>
      have hstep : chStep (chs, ex) e = (chs ++ [e], ((keyOf e, chs.length)) :: ex) := by
        simp [chStep, hl]
      rw [hstep] at hinv1 ⊢
      obtain ⟨h1, h2⟩ := ih (chs ++ [e]) (((keyOf e, chs.length)) :: ex) hinv1 hes
      have hcons : lookupIdx (((keyOf e, chs.length)) :: ex) k = lookupIdx ex k := by
        simp only [lookupIdx]
        rw [if_neg hek]
      refine ⟨by rw [h1, hcons], fun i hi => ?_⟩
      rw [h2 i (by rw [hcons]; exact hi)]
      have hbe : lookupBE chs k = some i := by rw [← hinv k]; exact hi
      exact List.getElem?_append_left (lookupBE_some _ _ _ hbe).1

/-- After the fold, the key of every upsert points at the entry of the last
upsert with that key. -/
theorem chApply_lastEntry (evs : List AppChange) :
    ∀ (chs : List AppChange) (ex : List ((String × String) × Nat)),
      ExInv chs ex → ∀ (k : String × String) (e : AppChange), lastEntry evs k = some e →
      ∃ i, lookupIdx (chApply evs (chs, ex)).2 k = some i
        ∧ (chApply evs (chs, ex)).1[i]? = some e := by
  induction evs with
  | nil => intro chs ex _ k e h; cases h
  | cons e₀ es ih =>
    intro chs ex hinv k e h
    have hinv1 := chStep_inv e₀ hinv
    rw [chApply_cons]
    simp only [lastEntry] at h
    cases hl : lastEntry es k with
    | some e' =>
      rw [hl] at h
      cases h
      rcases hstep : chStep (chs, ex) e₀ with ⟨chs1, ex1⟩
      rw [hstep] at hinv1
      exact ih chs1 ex1 hinv1 k _ hl
    | none =>
      rw [hl] at h
      by_cases hk : keyOf e₀ = k
      · rw [if_pos hk] at h
        cases h
        have hes : ∀ x ∈ es, keyOf x ≠ k := (lastEntry_eq_none_iff es k).mp hl
        cases hx : lookupIdx ex (keyOf e₀) with
        | some i₀ =>
          have hstep : chStep (chs, ex) e₀ = (chs.set i₀ e₀, ex) := by
            simp [chStep, hx]
          rw [hstep] at hinv1 ⊢
          obtain ⟨h1, h2⟩ := chApply_stable k es (chs.set i₀ e₀) ex hinv1 hes
          have hbe0 : lookupBE chs (keyOf e₀) = some i₀ := by
            rw [← hinv (keyOf e₀)]; exact hx
          have hbound : i₀ < chs.length := (lookupBE_some _ _ _ hbe0).1
          refine ⟨i₀, ?_, ?_⟩
          · rw [h1, ← hk]; exact hx
          · rw [h2 i₀ (by rw [← hk]; exact hx)]
            exact List.getElem?_set_self hbound
        | none =>
          have hstep : chStep (chs, ex) e₀ = (chs ++ [e₀], ((keyOf e₀, chs.length)) :: ex) := by
            simp [chStep, hx]
          rw [hstep] at hinv1 ⊢
          obtain ⟨h1, h2⟩ := chApply_stable k es (chs ++ [e₀]) (((keyOf e₀, chs.length)) :: ex)
            hinv1 hes
          have hcons : lookupIdx (((keyOf e₀, chs.length)) :: ex) k = some chs.length := by
            simp only [lookupIdx]
            rw [if_pos hk]
          refine ⟨chs.length, ?_, ?_⟩
          · rw [h1, hcons]
          · rw [h2 chs.length hcons]
            rw [List.getElem?_append_right (Nat.le_refl _)]
            simp
      · rw [if_neg hk] at h
        cases h

end MergeTool

namespace MergeTool

theorem lastEntry_mem (evs : List AppChange) (k : String × String) (e : AppChange)
    (h : lastEntry evs k = some e) : e ∈ evs ∧ keyOf e = k := by
  induction evs with
  | nil => cases h
  | cons e₀ es ih =>
    simp only [lastEntry] at h
    cases hl : lastEntry es k with
    | some e' =>
      rw [hl] at h
      cases h
      obtain ⟨hm, hk⟩ := ih hl
      exact ⟨List.mem_cons_of_mem _ hm, hk⟩
    | none =>
      rw [hl] at h
      by_cases hk : keyOf e₀ = k
      · rw [if_pos hk] at h
        cases h
        exact ⟨List.mem_cons_self _ _, hk⟩
      · rw [if_neg hk] at h
        cases h

/-- `ExInv` is preserved by the whole fold. -/
theorem chApply_inv (evs : List AppChange) :
    ∀ (chs : List AppChange) (ex : List ((String × String) × Nat)), ExInv chs ex →
      ExInv (chApply evs (chs, ex)).1 (chApply evs (chs, ex)).2 := by
  induction evs with
  | nil => intro chs ex h; exact h
  | cons e es ih =>
    intro chs ex h
    rw [chApply_cons]
    rcases hstep : chStep (chs, ex) e with ⟨chs1, ex1⟩
    have h1 := chStep_inv e h
    rw [hstep] at h1
    exact ih chs1 ex1 h1

/-- A position is written by an event sequence if some event's key points at
it through the dict. -/
def WrittenAt (evs : List AppChange) (ex : List ((String × String) × Nat)) (p : Nat) : Prop :=
  ∃ e ∈ evs, lookupIdx ex (keyOf e) = some p

/-- Replay: if every key's last upsert entry is already stored at the key's
index of `target`, and the starting list agrees with `target` away from
written positions, the fold lands exactly on `target`. -/
theorem chApply_replay (evs : List AppChange) :
    ∀ (chs target : List AppChange) (ex : List ((String × String) × Nat)),
      ExInv chs ex →
      (∀ (k : String × String) (e : AppChange), lastEntry evs k = some e →
        ∃ i, lookupIdx ex k = some i ∧ target[i]? = some e) →
      chs.length = target.length →
      (∀ p, ¬ WrittenAt evs ex p → chs[p]? = target[p]?) →
      (chApply evs (chs, ex)).1 = target := by
  induction evs with
  | nil =>
    intro chs target ex _ _ hlen hagree
    apply List.ext_getElem?
    intro p
    exact hagree p (by rintro ⟨e, he, -⟩; cases he)
  | cons e₀ es ih =>
    intro chs target ex hinv hlast hlen hagree
    have hsome : ∃ eL, lastEntry (e₀ :: es) (keyOf e₀) = some eL := by
      simp only [lastEntry]
      cases hl : lastEntry es (keyOf e₀) with
      | some e' => exact ⟨e', rfl⟩
      | none => exact ⟨e₀, by simp⟩
    obtain ⟨eL, hL⟩ := hsome
    obtain ⟨i₀, hi₀, htar⟩ := hlast _ _ hL
    have hstep : chStep (chs, ex) e₀ = (chs.set i₀ e₀, ex) := by
      simp [chStep, hi₀]
    rw [chApply_cons, hstep]
    have hinv1 : ExInv (chs.set i₀ e₀) ex := by
      have h0 := chStep_inv e₀ hinv
      rw [hstep] at h0
      exact h0
    have hbound : i₀ < chs.length := by
      have hbe : lookupBE chs (keyOf e₀) = some i₀ := by
        rw [← hinv (keyOf e₀)]; exact hi₀
      exact (lookupBE_some _ _ _ hbe).1
    apply ih (chs.set i₀ e₀) target ex hinv1
    · intro k e hle
      apply hlast
      simp only [lastEntry, hle]
    · rw [List.length_set]; exact hlen
    · intro p hp
      by_cases hpi : p = i₀
      · subst hpi
        have hes_none : lastEntry es (keyOf e₀) = none := by
          cases hl : lastEntry es (keyOf e₀) with
          | none => rfl
          | some e' =>
            obtain ⟨hm, hk⟩ := lastEntry_mem es (keyOf e₀) e' hl
            exact absurd ⟨e', hm, by rw [hk]; exact hi₀⟩ hp
        have heL : eL = e₀ := by
          simp only [lastEntry, hes_none, if_pos rfl] at hL
          cases hL
          rfl
        rw [List.getElem?_set_self hbound, htar, heL]
      · rw [List.getElem?_set_ne (fun h => hpi h.symm)]
        apply hagree
        rintro ⟨e, he, hlook⟩
        rcases List.mem_cons.mp he with rfl | he'
        · rw [hlook] at hi₀
          cases hi₀
          exact hpi rfl
        · exact hp ⟨e, he', hlook⟩

/-- Re-running the upsert fold over the same event sequence, with the dict
rebuilt from the result, is a no-op on the changes list. -/
theorem chApply_rebuild_idem (evs : List AppChange) (chs₀ : List AppChange) :
    (chApply evs ((chApply evs (chs₀, buildExisting chs₀)).1,
        buildExisting (chApply evs (chs₀, buildExisting chs₀)).1)).1
      = (chApply evs (chs₀, buildExisting chs₀)).1 := by
  set st1 := chApply evs (chs₀, buildExisting chs₀) with hst1
  apply chApply_replay evs st1.1 st1.1 (buildExisting st1.1) (exInv_buildExisting _)
  · intro k e hle
    obtain ⟨i, hi, hv⟩ := chApply_lastEntry evs chs₀ (buildExisting chs₀)
      (exInv_buildExisting _) k e hle
    refine ⟨i, ?_, hv⟩
    have hfin := chApply_inv evs chs₀ (buildExisting chs₀) (exInv_buildExisting _)
    show lookupBE st1.1 k = some i
    rw [← hfin k]
    exact hi
  · rfl
  · intro p _
    rfl

end MergeTool

namespace MergeTool

/-- The upsert event (if any) a single decision contributes. -/
def chEventOf (gids : List (Option String)) (d : Decision) : Option AppChange :=
  match d.guideline_id with
  | none => none
  | some gid =>
    if gid = "" then none
    else
      match findGidIdxAux gid 0 gids, d.proposed_applicability_change with
      | some _, some pc => some (mkChangeEntry gid pc)
      | _, _ => none

theorem chEvents_eq (gids : List (Option String)) (ds : List Decision) :
    chEvents gids ds = ds.filterMap (chEventOf gids) := rfl

/-- Decomposition of the merge loop: starting from any state, the final
`guidelines` are the initial ones with the write sequence applied, the final
`(applicability_changes, existing_changes)` are the initial ones with the
upsert events applied, and `summary` and all other report fields are
untouched.  All sequences depend on the report only through its
`guideline_id` column. -/
theorem mergeFold_decompose (ds : List Decision) :
    ∀ (s : MergeState),
      (ds.foldl mergeStep s).report.guidelines
        = applyVdWrites (vdWrites (s.report.guidelines.map (·.guideline_id)) ds)
            s.report.guidelines
      ∧ ((ds.foldl mergeStep s).report.applicability_changes,
          (ds.foldl mergeStep s).existing)
        = chApply (chEvents (s.report.guidelines.map (·.guideline_id)) ds)
            (s.report.applicability_changes, s.existing)
      ∧ (ds.foldl mergeStep s).report.summary = s.report.summary
      ∧ (ds.foldl mergeStep s).report.extra = s.report.extra := by
  induction ds with
  | nil => intro s; exact ⟨rfl, rfl, rfl, rfl⟩
  | cons d ds ih =>
    intro s
    rw [List.foldl_cons]
    by_cases hskip : dTarget (s.report.guidelines.map (·.guideline_id)) d = none
    · have hstep : mergeStep s d =
          { s with skipped := s.skipped + 1
                   skipped_guidelines := s.skipped_guidelines ++ [skipLabel d] } := by
        cases hgid : d.guideline_id with
        | none => simp [mergeStep, skipLabel, hgid]
        | some gid =>
          unfold dTarget at hskip
          rw [hgid] at hskip
          by_cases hemp : gid = ""
          · simp [mergeStep, skipLabel, hgid, hemp]
          · have hfind : find_guideline_index s.report gid = none := by
              have h2 : findGidIdxAux gid 0 (s.report.guidelines.map (·.guideline_id))
                  = none := by
                simpa [hemp] using hskip
              exact h2
            simp [mergeStep, skipLabel, hgid, hemp, hfind]
      have hev : chEventOf (s.report.guidelines.map (·.guideline_id)) d = none := by
        cases hgid : d.guideline_id with
        | none => simp [chEventOf, hgid]
        | some gid =>
          unfold dTarget at hskip
          rw [hgid] at hskip
          by_cases hemp : gid = ""
          · simp [chEventOf, hgid, hemp]
          · have hfind : findGidIdxAux gid 0 (s.report.guidelines.map (·.guideline_id))
                = none := by
              simpa [hemp] using hskip
            simp [chEventOf, hgid, hemp, hfind]
      have hw : vdWrites (s.report.guidelines.map (·.guideline_id)) (d :: ds)
          = vdWrites (s.report.guidelines.map (·.guideline_id)) ds := by
        simp [vdWrites, List.filterMap_cons, hskip]
      have he : chEvents (s.report.guidelines.map (·.guideline_id)) (d :: ds)
          = chEvents (s.report.guidelines.map (·.guideline_id)) ds := by
        rw [chEvents_eq, chEvents_eq, List.filterMap_cons, hev]
      rw [hstep, hw, he]
      exact ih _
    · push_neg at hskip
      obtain ⟨idx, hidx⟩ := Option.ne_none_iff_exists'.mp hskip
      obtain ⟨gid, hgid, hemp, hfind⟩ :
          ∃ gid, d.guideline_id = some gid ∧ gid ≠ ""
            ∧ find_guideline_index s.report gid = some idx := by
        unfold dTarget at hidx
        cases hgid : d.guideline_id with
        | none =>
          rw [hgid] at hidx
          simp at hidx
        | some gid =>
          rw [hgid] at hidx
          by_cases hemp : gid = ""
          · simp [hemp] at hidx
          · have hfind : findGidIdxAux gid 0 (s.report.guidelines.map (·.guideline_id))
                = some idx := by
              simpa [hemp] using hidx
            exact ⟨gid, rfl, hemp, hfind⟩
      have hw : vdWrites (s.report.guidelines.map (·.guideline_id)) (d :: ds)
          = (idx, build_verification_decision d)
            :: vdWrites (s.report.guidelines.map (·.guideline_id)) ds := by
        simp [vdWrites, List.filterMap_cons, hidx]
      cases hpac : d.proposed_applicability_change with
      | none =>
        have hstep : mergeStep s d =
            { s with
              report := { s.report with
                guidelines := modifyAt (setVd (build_verification_decision d)) idx
                  s.report.guidelines }
              merged := s.merged + 1 } := by
          unfold mergeStep
          simp [hgid, hemp, hfind, hpac]
        have hev : chEventOf (s.report.guidelines.map (·.guideline_id)) d = none := by
          unfold chEventOf
          have : findGidIdxAux gid 0 (s.report.guidelines.map (·.guideline_id)) = some idx :=
            hfind
          simp [hgid, hemp, hpac, this]
        have he : chEvents (s.report.guidelines.map (·.guideline_id)) (d :: ds)
            = chEvents (s.report.guidelines.map (·.guideline_id)) ds := by
          rw [chEvents_eq, chEvents_eq, List.filterMap_cons, hev]
        rw [hstep, hw, he]
        obtain ⟨h1, h2, h3, h4⟩ := ih
          { s with
            report := { s.report with
              guidelines := modifyAt (setVd (build_verification_decision d)) idx
                s.report.guidelines }
            merged := s.merged + 1 }
        rw [map_gid_modifyAt_setVd] at h1 h2
        exact ⟨h1, h2, h3, h4⟩
      | some pc =>
        have hev : chEventOf (s.report.guidelines.map (·.guideline_id)) d
            = some (mkChangeEntry gid pc) := by
          unfold chEventOf
          have : findGidIdxAux gid 0 (s.report.guidelines.map (·.guideline_id)) = some idx :=
            hfind
          simp [hgid, hemp, hpac, this]
        have he : chEvents (s.report.guidelines.map (·.guideline_id)) (d :: ds)
            = mkChangeEntry gid pc
              :: chEvents (s.report.guidelines.map (·.guideline_id)) ds := by
          rw [chEvents_eq, chEvents_eq, List.filterMap_cons, hev]
        have hkey : keyOf (mkChangeEntry gid pc) = (gid, pc.field) := rfl
        cases hlook : lookupIdx s.existing (gid, pc.field) with
        | some i =>
          have hstep : mergeStep s d =
              { s with
                report := { s.report with
                  guidelines := modifyAt (setVd (build_verification_decision d)) idx
                    s.report.guidelines
                  applicability_changes :=
                    s.report.applicability_changes.set i (mkChangeEntry gid pc) }
                merged := s.merged + 1 } := by
            unfold mergeStep
            simp [hgid, hemp, hfind, hpac, hlook]
          have hchstep : chStep (s.report.applicability_changes, s.existing)
              (mkChangeEntry gid pc)
              = (s.report.applicability_changes.set i (mkChangeEntry gid pc), s.existing) := by
            simp [chStep, hkey, hlook]
          rw [hstep, hw, he, chApply_cons, hchstep]
          obtain ⟨h1, h2, h3, h4⟩ := ih
            { s with
              report := { s.report with
                guidelines := modifyAt (setVd (build_verification_decision d)) idx
                  s.report.guidelines
                applicability_changes :=
                  s.report.applicability_changes.set i (mkChangeEntry gid pc) }
              merged := s.merged + 1 }
          rw [map_gid_modifyAt_setVd] at h1 h2
          exact ⟨h1, h2, h3, h4⟩
        | none =>
          have hstep : mergeStep s d =
              { s with
                report := { s.report with
                  guidelines := modifyAt (setVd (build_verification_decision d)) idx
                    s.report.guidelines
                  applicability_changes :=
                    s.report.applicability_changes ++ [mkChangeEntry gid pc] }
                existing := ((gid, pc.field), s.report.applicability_changes.length)
                  :: s.existing
                merged := s.merged + 1 } := by
            unfold mergeStep
            simp [hgid, hemp, hfind, hpac, hlook]
          have hchstep : chStep (s.report.applicability_changes, s.existing)
              (mkChangeEntry gid pc)
              = (s.report.applicability_changes ++ [mkChangeEntry gid pc],
                 ((gid, pc.field), s.report.applicability_changes.length) :: s.existing) := by
            simp [chStep, hkey, hlook]
          rw [hstep, hw, he, chApply_cons, hchstep]
          obtain ⟨h1, h2, h3, h4⟩ := ih
            { s with
              report := { s.report with
                guidelines := modifyAt (setVd (build_verification_decision d)) idx
                  s.report.guidelines
                applicability_changes :=
                  s.report.applicability_changes ++ [mkChangeEntry gid pc] }
              existing := ((gid, pc.field), s.report.applicability_changes.length)
                :: s.existing
              merged := s.merged + 1 }
          rw [map_gid_modifyAt_setVd] at h1 h2
          exact ⟨h1, h2, h3, h4⟩

end MergeTool

namespace MergeTool

theorem mergeStep_skip (s : MergeState) (d : Decision)
    (h : dTarget (s.report.guidelines.map (·.guideline_id)) d = none) :
    mergeStep s d =
      { s with skipped := s.skipped + 1
               skipped_guidelines := s.skipped_guidelines ++ [skipLabel d] } := by
  cases hgid : d.guideline_id with
  | none => simp [mergeStep, skipLabel, hgid]
  | some gid =>
    unfold dTarget at h
    rw [hgid] at h
    by_cases hemp : gid = ""
    · simp [mergeStep, skipLabel, hgid, hemp]
    · have hfind : find_guideline_index s.report gid = none := by
        have h2 : findGidIdxAux gid 0 (s.report.guidelines.map (·.guideline_id)) = none := by
          simpa [hemp] using h
        exact h2
      simp [mergeStep, skipLabel, hgid, hemp, hfind]

theorem lastWriteVd_eq_none_iff (ws : List (Nat × VerificationDecision)) (p : Nat) :
    lastWriteVd ws p = none ↔ ∀ w ∈ ws, w.1 ≠ p := by
  induction ws with
  | nil => simp [lastWriteVd]
  | cons w ws ih =>
    simp only [lastWriteVd]
    cases hl : lastWriteVd ws p with
    | some v =>
      constructor
      · intro h; cases h
      · intro h
        have hn : lastWriteVd ws p = none :=
          ih.mpr (fun x hx => h x (List.mem_cons_of_mem _ hx))
        rw [hl] at hn; cases hn
    | none =>
      have hws := ih.mp hl
      by_cases hk : w.1 = p
      · rw [if_pos hk]
        constructor
        · intro h; cases h
        · intro h; exact absurd hk (h w (List.mem_cons_self _ _))
      · rw [if_neg hk]
        constructor
        · intro _ x hx
          rcases List.mem_cons.mp hx with rfl | hx'
          · exact hk
          · exact hws x hx'
        · intro _; rfl

theorem mem_vdWrites (gids : List (Option String)) (ds : List Decision)
    (w : Nat × VerificationDecision) (hw : w ∈ vdWrites gids ds) :
    ∃ d ∈ ds, dTarget gids d = some w.1 := by
  obtain ⟨d, hd, hmap⟩ := List.mem_filterMap.mp hw
  cases ht : dTarget gids d with
  | none => rw [ht] at hmap; cases hmap
  | some i =>
    rw [ht] at hmap
    have hmap' : some (i, build_verification_decision d) = some w := hmap
    cases hmap'
    exact ⟨d, hd, ht⟩

/-- The report's `guidelines` after a merge, pointwise. -/
theorem merge_guidelines_eq (r : Report) (ds : List Decision) :
    (merge_decisions_into_report r ds).1.guidelines
      = applyVdWrites (vdWrites (r.guidelines.map (·.guideline_id)) ds) r.guidelines :=
  (mergeFold_decompose ds _).1

theorem merge_changes_eq (r : Report) (ds : List Decision) :
    (merge_decisions_into_report r ds).1.applicability_changes
      = (chApply (chEvents (r.guidelines.map (·.guideline_id)) ds)
          (r.applicability_changes, buildExisting r.applicability_changes)).1 :=
  congrArg Prod.fst (mergeFold_decompose ds _).2.1

theorem merge_gid_map (r : Report) (ds : List Decision) :
    (merge_decisions_into_report r ds).1.guidelines.map (·.guideline_id)
      = r.guidelines.map (·.guideline_id) := by
  rw [merge_guidelines_eq, applyVdWrites_map_gid]

@[simp] theorem update_summary_guidelines (r : Report) :
    (update_summary r).guidelines = r.guidelines := rfl

@[simp] theorem update_summary_changes (r : Report) :
    (update_summary r).applicability_changes = r.applicability_changes := rfl

/-- Guideline entry with its `verification_decision` forgotten (everything
the merge can never change). -/
def stripVd (g : Guideline) : Guideline :=
  { g with verification_decision := none }

/-- Claim C1.  Merging a fixed decision list into a batch report and
recomputing the summary is idempotent: a second merge of the same list
followed by `update_summary` leaves every guideline's
`verification_decision` and the whole `summary` object unchanged, and the
summary produced by `update_summary` never depends on the previously stored
summary (it is recomputed from the report content alone). -/
theorem merge_then_summary_idempotent (r : Report) (ds : List Decision) :
    ((update_summary (merge_decisions_into_report
        (update_summary (merge_decisions_into_report r ds).1) ds).1).guidelines.map
          (·.verification_decision)
      = ((update_summary (merge_decisions_into_report r ds).1).guidelines.map
          (·.verification_decision)))
    ∧ ((update_summary (merge_decisions_into_report
        (update_summary (merge_decisions_into_report r ds).1) ds).1).summary
      = (update_summary (merge_decisions_into_report r ds).1).summary)
    ∧ (∀ s₀ : Option Summary,
        (update_summary { r with summary := s₀ }).summary = (update_summary r).summary) := by
  set m1 := (merge_decisions_into_report r ds).1 with hm1
  set r1 := update_summary m1 with hr1
  have hg1 : r1.guidelines = m1.guidelines := rfl
  have hc1 : r1.applicability_changes = m1.applicability_changes := rfl
  have hgids : r1.guidelines.map (·.guideline_id) = r.guidelines.map (·.guideline_id) := by
    rw [hg1, hm1, merge_gid_map]
  have hgs : (merge_decisions_into_report r1 ds).1.guidelines = r1.guidelines := by
    rw [merge_guidelines_eq, hgids, hg1, hm1, merge_guidelines_eq, applyVdWrites_idem]
  have hcs : (merge_decisions_into_report r1 ds).1.applicability_changes
      = r1.applicability_changes := by
    rw [merge_changes_eq, hgids, hc1, hm1, merge_changes_eq]
    exact chApply_rebuild_idem _ _
  have hcongr : ∀ (a b : Report), a.guidelines = b.guidelines →
      a.applicability_changes = b.applicability_changes →
      (update_summary a).summary = (update_summary b).summary := by
    intro a b hg hc
    unfold update_summary
    rw [hg, hc]
  refine ⟨?_, ?_, fun s₀ => rfl⟩
  · rw [update_summary_guidelines, hgs]
  · show (update_summary (merge_decisions_into_report r1 ds).1).summary = r1.summary
    have : r1.summary = (update_summary m1).summary := rfl
    rw [this]
    exact hcongr _ _ (hgs.trans hg1) (hcs.trans hc1)

/-- Claim C10.  The merge preserves the report's guideline set as a frame:
the `guidelines` array keeps its length, every entry keeps everything but
its `verification_decision` field (so no entry is added, removed, or
reordered), an entry no decision targets is kept verbatim, and a skipped
decision (falsy or unknown `guideline_id`) merges as a pure skip: the
report — `applicability_changes` included — is returned unchanged with
`(merged, skipped, skipped_guidelines) = (0, 1, [label])`. -/
theorem merge_guideline_frame (r : Report) (ds : List Decision) :
    ((merge_decisions_into_report r ds).1.guidelines.length = r.guidelines.length)
    ∧ (∀ p : Nat, (merge_decisions_into_report r ds).1.guidelines[p]?.map stripVd
        = r.guidelines[p]?.map stripVd)
    ∧ (∀ p : Nat,
        (∀ d ∈ ds, dTarget (r.guidelines.map (·.guideline_id)) d ≠ some p) →
        (merge_decisions_into_report r ds).1.guidelines[p]? = r.guidelines[p]?)
    ∧ (∀ d : Decision, dTarget (r.guidelines.map (·.guideline_id)) d = none →
        merge_decisions_into_report r [d] = (r, 0, 1, [skipLabel d])) := by
  refine ⟨?_, ?_, ?_, ?_⟩
  · rw [merge_guidelines_eq, applyVdWrites_length]
  · intro p
    rw [merge_guidelines_eq, applyVdWrites_getElem?]
    cases lastWriteVd (vdWrites (r.guidelines.map (·.guideline_id)) ds) p with
    | none => rfl
    | some v =>
      rw [Option.map_map]
      rw [show stripVd ∘ setVd v = stripVd from funext fun g => rfl]
  · intro p hp
    rw [merge_guidelines_eq, applyVdWrites_getElem?]
    have hnone : lastWriteVd (vdWrites (r.guidelines.map (·.guideline_id)) ds) p = none := by
      rw [lastWriteVd_eq_none_iff]
      intro w hw
      obtain ⟨d, hd, ht⟩ := mem_vdWrites _ _ _ hw
      intro hEq
      exact hp d hd (hEq ▸ ht)
    rw [hnone]
  · intro d hd
    unfold merge_decisions_into_report
    rw [List.foldl_cons, List.foldl_nil, mergeStep_skip _ d hd]
    rfl

/-- Witness for `merge_guideline_frame` at a concrete report and decision
list: the untouched position 5 and a skipped decision. -/
theorem merge_guideline_frame_witness :
    ((merge_decisions_into_report
        { guidelines := [{ guideline_id := some ("Rule 10.1"), verification_decision := none,
                           extra := 7 }],
          applicability_changes := [], summary := none, extra := 3 }
        [{ guideline_id := some ("Rule 99.9"), decision := some ("accept_existing"),
           confidence := none, fls_rationale_type := none, accepted_matches := [],
           rejected_matches := [], notes := none,
           proposed_applicability_change := none }]).1.guidelines[5]?
      = ([{ guideline_id := some ("Rule 10.1"), verification_decision := none,
            extra := 7 }] : List Guideline)[5]?)
    ∧ (merge_decisions_into_report
        { guidelines := [{ guideline_id := some ("Rule 10.1"), verification_decision := none,
                           extra := 7 }],
          applicability_changes := [], summary := none, extra := 3 }
        [{ guideline_id := some ("Rule 99.9"), decision := some ("accept_existing"),
           confidence := none, fls_rationale_type := none, accepted_matches := [],
           rejected_matches := [], notes := none,
           proposed_applicability_change := none }]
      = ({ guidelines := [{ guideline_id := some ("Rule 10.1"),
                            verification_decision := none, extra := 7 }],
           applicability_changes := [], summary := none, extra := 3 }, 0, 1,
         ["Rule 99.9"])) := by
  constructor
  · exact (merge_guideline_frame _ _).2.2.1 5 (by decide)
  · exact (merge_guideline_frame _ []).2.2.2 _ (by decide)

end MergeTool

namespace MergeTool

/-! ### The merge CLI flow (`load_decision_files` and `main`) -/

/-- Python `s.replace(" ", "_")` (the pattern is a single character, so the
replacement is a character map). -/
def underscoreSpaces (s : String) : String :=
  String.mk (s.toList.map (fun c => if c = ' ' then '_' else c))

/-- Expected filename for a decision's `guideline_id` (spaces → `_`). -/
def expectedFilename (d : Decision) : String :=
  underscoreSpaces (d.guideline_id.getD ("")) ++ ".json"

def filenameMismatchMsg (name expected : String) : String :=
  "Filename mismatch: file is '" ++ name ++ "' but guideline_id suggests '"
    ++ expected ++ "'"

/-- `load_decision_files`: each input is `(filename, parse result)`; a `none`
parse result is an unparsable file.  Schema validation (`jsonschema`, an
external collaborator) is abstracted as a function producing error strings,
and runs only when both `--validate` was given and a schema was found.
Returns `(valid_decisions, errors_by_file)`. -/
def load_decision_files (files : List (String × Option Decision))
    (schema : Option (Decision → List String)) (validate : Bool) :
    List Decision × List (String × List String) :=
  files.foldl
    (fun acc f =>
      match f.2 with
      | none => (acc.1, acc.2 ++ [(f.1, ["Failed to parse JSON"])])
      | some d =>
        let errs : List String :=
          (match schema, validate with
           | some check, true => check d
           | _, _ => [])
          ++ (if f.1 = expectedFilename d then []
              else [filenameMismatchMsg f.1 (expectedFilename d)])
        if errs = [] then (acc.1 ++ [d], acc.2) else (acc.1, acc.2 ++ [(f.1, errs)]))
    ([], [])

/-- Outcome of one run of the merge tool's `main`, after path resolution and
report loading succeeded.  `abortedValidation` and `noValidDecisions` exit
before anything is written. -/
inductive MergeOutcome where
  | abortedValidation (errorsByFile : List (String × List String))
  | noValidDecisions (errorsByFile : List (String × List String))
  | completed (errorsByFile : List (String × List String)) (finalReport : Report)
      (written : Bool) (merged : Nat) (skipped : Nat) (skippedGuidelines : List String)
deriving DecidableEq

/-- The tail of `main` in `merge.py`: load the decision files, abort on
validation errors only under `--validate`, otherwise warn and proceed with
the valid subset; merge, recompute the summary, and write the report unless
`--dry-run`. -/
def runMerge (report : Report) (files : List (String × Option Decision))
    (schema : Option (Decision → List String)) (validate dryRun : Bool) : MergeOutcome :=
  let loaded := load_decision_files files schema validate
  if loaded.2 ≠ [] ∧ validate = true then .abortedValidation loaded.2
  else if loaded.1 = [] then .noValidDecisions loaded.2
  else
    let m := merge_decisions_into_report report loaded.1
    .completed loaded.2 (update_summary m.1) (!dryRun) m.2.1 m.2.2.1 m.2.2.2

/-- Claim C4 counterexample.  A decisions directory in which `Bad.json` is
unparsable, merged WITHOUT `--validate` and without any explicit
"proceed with valid subset" instruction: the merge does NOT abort — it
completes, writes the report, and merges the valid file.  The claim's
default (abort on any validation error, proceed only when explicitly told
to) is the opposite of the code's behaviour. -/
theorem merge_no_abort_by_default :
    runMerge
      { guidelines := [{ guideline_id := some ("Rule 10.1"),
                         verification_decision := none, extra := 0 }],
        applicability_changes := [], summary := none, extra := 0 }
      [("Bad.json", none),
       ("Rule_10.1.json", some
         { guideline_id := some ("Rule 10.1"), decision := some ("accept_existing"),
           confidence := some ("high"), fls_rationale_type := none,
           accepted_matches := [], rejected_matches := [], notes := none,
           proposed_applicability_change := none })]
      none false false
    = .completed [("Bad.json", ["Failed to parse JSON"])]
        { guidelines := [{ guideline_id := some ("Rule 10.1"),
                           verification_decision := some
                             { decision := some ("accept_existing"),
                               confidence := some ("high"), fls_rationale_type := none,
                               accepted_matches := [], rejected_matches := [],
                               notes := none, proposed_applicability_change := none },
                           extra := 0 }],
          applicability_changes := [],
          summary := some { total_guidelines := 1, verified_count := 1,
                            applicability_changes_proposed := 0,
                            applicability_changes_approved := 0 },
          extra := 0 }
        true 1 0 [] := by
  decide

/-- Claim C4 as amended.  The merge aborts with nothing written exactly when
`--validate` was given and some file failed validation; in the default
(no `--validate`) mode a failing file only produces a warning and the merge
proceeds with the valid subset alone, writing the merged report (unless
`--dry-run`). -/
theorem merge_abort_iff_validate (report : Report)
    (files : List (String × Option Decision)) (schema : Option (Decision → List String))
    (dryRun : Bool) :
    ((load_decision_files files schema true).2 ≠ [] →
      runMerge report files schema true dryRun
        = .abortedValidation (load_decision_files files schema true).2)
    ∧ ((load_decision_files files schema false).2 ≠ [] →
       (load_decision_files files schema false).1 ≠ [] →
        runMerge report files schema false dryRun
          = .completed (load_decision_files files schema false).2
              (update_summary
                (merge_decisions_into_report report
                  (load_decision_files files schema false).1).1)
              (!dryRun)
              (merge_decisions_into_report report
                (load_decision_files files schema false).1).2.1
              (merge_decisions_into_report report
                (load_decision_files files schema false).1).2.2.1
              (merge_decisions_into_report report
                (load_decision_files files schema false).1).2.2.2) := by
  constructor
  · intro herr
    unfold runMerge
    rw [if_pos ⟨herr, rfl⟩]
  · intro herr hval
    unfold runMerge
    rw [if_neg (by rintro ⟨-, h⟩; cases h), if_neg hval]

/-- Witness for `merge_abort_iff_validate`: one unparsable file aborts under
`--validate`, and under the default mode the same directory completes. -/
theorem merge_abort_iff_validate_witness :
    (runMerge
        { guidelines := [], applicability_changes := [], summary := none, extra := 0 }
        [("Bad.json", none),
         ("Rule_1.1.json", some
           { guideline_id := some ("Rule 1.1"), decision := none, confidence := none,
             fls_rationale_type := none, accepted_matches := [], rejected_matches := [],
             notes := none, proposed_applicability_change := none })]
        none true false
      = .abortedValidation [("Bad.json", ["Failed to parse JSON"])])
    ∧ (runMerge
        { guidelines := [], applicability_changes := [], summary := none, extra := 0 }
        [("Bad.json", none),
         ("Rule_1.1.json", some
           { guideline_id := some ("Rule 1.1"), decision := none, confidence := none,
             fls_rationale_type := none, accepted_matches := [], rejected_matches := [],
             notes := none, proposed_applicability_change := none })]
        none false false
      = .completed [("Bad.json", ["Failed to parse JSON"])]
          (update_summary
            (merge_decisions_into_report
              { guidelines := [], applicability_changes := [], summary := none, extra := 0 }
              [{ guideline_id := some ("Rule 1.1"), decision := none, confidence := none,
                 fls_rationale_type := none, accepted_matches := [], rejected_matches := [],
                 notes := none, proposed_applicability_change := none }]).1)
          true 0 1 ["Rule 1.1"]) := by
  constructor
  · have h := (merge_abort_iff_validate
      { guidelines := [], applicability_changes := [], summary := none, extra := 0 }
      [("Bad.json", none),
       ("Rule_1.1.json", some
         { guideline_id := some ("Rule 1.1"), decision := none, confidence := none,
           fls_rationale_type := none, accepted_matches := [], rejected_matches := [],
           notes := none, proposed_applicability_change := none })]
      none false).1 (by decide)
    rw [h]
    decide
  · have h := (merge_abort_iff_validate
      { guidelines := [], applicability_changes := [], summary := none, extra := 0 }
      [("Bad.json", none),
       ("Rule_1.1.json", some
         { guideline_id := some ("Rule 1.1"), decision := none, confidence := none,
           fls_rationale_type := none, accepted_matches := [], rejected_matches := [],
           notes := none, proposed_applicability_change := none })]
      none false).2 (by decide) (by decide)
    rw [h]
    decide

end MergeTool

namespace ValidateTool

/-! ## Embedding of `standards/validation/decisions.py`

Error messages are abstracted to a structured type carrying the data each
message interpolates. -/

open MergeTool (Decision DecisionMatch underscoreSpaces)

inductive FileError where
  | parseFailure
  | schemaError (msg : String)
  | filenameMismatch (actual expected : String)
  | notInBatch (gid : String)
  | invalidFlsId (matchType : String) (idx : Nat) (fls_id : String)
  | emptyReason (matchType : String) (idx : Nat)
  | duplicateGuideline (gid : String) (otherFile : String)
deriving DecidableEq

/-- `guideline_id_to_filename`. -/
def guideline_id_to_filename (guideline_id : String) : String :=
  underscoreSpaces guideline_id ++ ".json"

/-- The head test of `re.match(r"^fls_[a-zA-Z0-9]+$", s)`: the characters
after a literal `fls_` head, if the head is present. -/
def flsRest (s : String) : Option (List Char) :=
  match s.toList with
  | 'f' :: 'l' :: 's' :: '_' :: rest => some rest
  | _ => none

/-- The validator's FLS-id pattern `fls_[a-zA-Z0-9]+` (anchored both ends;
note: no length bound). -/
def fls_id_ok (s : String) : Bool :=
  match flsRest s with
  | some rest => !rest.isEmpty && rest.all (·.isAlphanum)
  | none => false

/-- Python `not reason or not reason.strip()` for a present string. -/
def blankStr (s : String) : Bool :=
  s.toList.all (·.isWhitespace)

/-- A match's `reason` is missing/null, empty, or whitespace-only. -/
def reasonBlank (m : DecisionMatch) : Bool :=
  match m.reason with
  | none => true
  | some r => blankStr r

/-- The errors one match entry contributes (fls-id format, then reason). -/
def matchEntryErrors (t : String) (i : Nat) (m : DecisionMatch) : List FileError :=
  (if fls_id_ok (m.fls_id.getD ("")) then []
   else [FileError.invalidFlsId t i (m.fls_id.getD (""))])
  ++ (if reasonBlank m then [FileError.emptyReason t i] else [])

/-- The `for i, match in enumerate(...)` loop, indices starting at `k`. -/
def matchErrorsAux (t : String) : Nat → List DecisionMatch → List FileError
  | _, [] => []
  | k, m :: ms => matchEntryErrors t k m ++ matchErrorsAux t (k + 1) ms

/-- `validate_decision_file`: `(is_valid, errors, parsed_data)`. -/
def validate_decision_file (name : String) (data : Option Decision)
    (schema : Option (Decision → List String)) (batchIds : Option (List String)) :
    Bool × List FileError × Option Decision :=
  match data with
  | none => (false, [FileError.parseFailure], none)
  | some d =>
    let schemaErrs : List FileError :=
      match schema with
      | some check => (check d).map FileError.schemaError
      | none => []
    let expected := guideline_id_to_filename (d.guideline_id.getD (""))
    let nameErrs : List FileError :=
      if name = expected then [] else [FileError.filenameMismatch name expected]
    let batchErrs : List FileError :=
      match batchIds with
      | some ids =>
        match d.guideline_id with
        | some gid =>
          if gid ≠ "" && !(ids.contains gid) then [FileError.notInBatch gid] else []
        | none => []
      | none => []
    let flsErrs :=
      matchErrorsAux ("accepted_matches") 0 d.accepted_matches
        ++ matchErrorsAux ("rejected_matches") 0 d.rejected_matches
    let errs := schemaErrs ++ nameErrs ++ batchErrs ++ flsErrs
    (errs.isEmpty, errs, some d)

/-- The loop state of `validate_decisions_directory`. -/
structure VddState where
  valid : Nat
  invalid : Nat
  errsByFile : List (String × List FileError)
  seen : List String
  idToFile : List (String × String)
deriving DecidableEq

/-- Per-file intermediate data of the `validate_decisions_directory` loop
(validity and errors after the duplicate check, plus the updated tracking
collections). -/
structure VddScratch where
  isv : Bool
  errs : List FileError
  seen : List String
  idToFile : List (String × String)

def vddStep (schema : Option (Decision → List String)) (batchIds : Option (List String))
    (st : VddState) (f : String × Option Decision) : VddState :=
  let r := validate_decision_file f.1 f.2 schema batchIds
  let st1 : VddScratch :=
    match r.2.2 with
    | some d =>
      match d.guideline_id with
      | some gid =>
        if gid ≠ "" then
          if st.seen.contains gid then
            { isv := false
              errs := r.2.1 ++ [FileError.duplicateGuideline gid
                ((assocFind st.idToFile gid).getD (""))]
              seen := st.seen, idToFile := st.idToFile }
          else
            { isv := r.1, errs := r.2.1, seen := st.seen ++ [gid]
              idToFile := st.idToFile ++ [(gid, f.1)] }
        else { isv := r.1, errs := r.2.1, seen := st.seen, idToFile := st.idToFile }
      | none => { isv := r.1, errs := r.2.1, seen := st.seen, idToFile := st.idToFile }
    | none => { isv := r.1, errs := r.2.1, seen := st.seen, idToFile := st.idToFile }
  if st1.isv then
    { st with valid := st.valid + 1, seen := st1.seen, idToFile := st1.idToFile }
  else
    { st with invalid := st.invalid + 1
              errsByFile := st.errsByFile ++ [(f.1, st1.errs)]
              seen := st1.seen, idToFile := st1.idToFile }

/-- `validate_decisions_directory`:
`(valid_count, invalid_count, errors_by_file, guideline_ids)`. -/
def validate_decisions_directory (files : List (String × Option Decision))
    (schema : Option (Decision → List String)) (batchIds : Option (List String)) :
    Nat × Nat × List (String × List FileError) × List String :=
  let st := files.foldl (vddStep schema batchIds)
    { valid := 0, invalid := 0, errsByFile := [], seen := [], idToFile := [] }
  (st.valid, st.invalid, st.errsByFile, st.seen)

end ValidateTool

namespace ValidateTool

open MergeTool (Decision DecisionMatch)

theorem mem_matchEntryErrors_invalid (t : String) (k i : Nat) (m : DecisionMatch)
    (fid : String) :
    FileError.invalidFlsId t i fid ∈ matchEntryErrors t k m
      ↔ i = k ∧ fid = m.fls_id.getD ("") ∧ fls_id_ok (m.fls_id.getD ("")) = false := by
  unfold matchEntryErrors
  by_cases hok : fls_id_ok (m.fls_id.getD ("")) = true
  · by_cases hrb : reasonBlank m = true <;> simp [hok, hrb]
  · have hok' : fls_id_ok (m.fls_id.getD ("")) = false := by
      cases h : fls_id_ok (m.fls_id.getD ("")) with
      | false => rfl
      | true => exact absurd h hok
    by_cases hrb : reasonBlank m = true <;> simp [hok', hrb]

theorem mem_matchEntryErrors_empty (t : String) (k i : Nat) (m : DecisionMatch) :
    FileError.emptyReason t i ∈ matchEntryErrors t k m
      ↔ i = k ∧ reasonBlank m = true := by
  unfold matchEntryErrors
  by_cases hok : fls_id_ok (m.fls_id.getD ("")) = true <;>
    by_cases hrb : reasonBlank m = true <;>
    simp [hok, hrb]

theorem mem_matchErrorsAux_invalid (t : String) (ms : List DecisionMatch) :
    ∀ (k i : Nat) (fid : String),
      FileError.invalidFlsId t i fid ∈ matchErrorsAux t k ms
        ↔ ∃ j m, i = k + j ∧ ms[j]? = some m ∧ fid = m.fls_id.getD ("")
            ∧ fls_id_ok (m.fls_id.getD ("")) = false := by
  induction ms with
  | nil => intro k i fid; simp [matchErrorsAux]
  | cons m ms ih =>
    intro k i fid
    simp only [matchErrorsAux, List.mem_append]
    rw [mem_matchEntryErrors_invalid, ih (k + 1) i fid]
    constructor
    · rintro (⟨rfl, rfl, hok⟩ | ⟨j, m', hij, hj, hfid, hok⟩)
      · exact ⟨0, m, by omega, by simp, rfl, hok⟩
      · exact ⟨j + 1, m', by omega, by simpa using hj, hfid, hok⟩
    · rintro ⟨j, m', hij, hj, hfid, hok⟩
      cases j with
      | zero =>
        simp only [List.getElem?_cons_zero] at hj
        cases hj
        exact Or.inl ⟨by omega, hfid, hok⟩
      | succ j' =>
        exact Or.inr ⟨j', m', by omega, by simpa using hj, hfid, hok⟩

theorem mem_matchErrorsAux_empty (t : String) (ms : List DecisionMatch) :
    ∀ (k i : Nat),
      FileError.emptyReason t i ∈ matchErrorsAux t k ms
        ↔ ∃ j m, i = k + j ∧ ms[j]? = some m ∧ reasonBlank m = true := by
  induction ms with
  | nil => intro k i; simp [matchErrorsAux]
  | cons m ms ih =>
    intro k i
    simp only [matchErrorsAux, List.mem_append]
    rw [mem_matchEntryErrors_empty, ih (k + 1) i]
    constructor
    · rintro (⟨rfl, hrb⟩ | ⟨j, m', hij, hj, hrb⟩)
      · exact ⟨0, m, by omega, by simp, hrb⟩
      · exact ⟨j + 1, m', by omega, by simpa using hj, hrb⟩
    · rintro ⟨j, m', hij, hj, hrb⟩
      cases j with
      | zero =>
        simp only [List.getElem?_cons_zero] at hj
        cases hj
        exact Or.inl ⟨by omega, hrb⟩
      | succ j' =>
        exact Or.inr ⟨j', m', by omega, by simpa using hj, hrb⟩

/-- Every error produced by the match loop carries the loop's own
`match_type` string. -/
theorem matchErrorsAux_types (t : String) (ms : List DecisionMatch) :
    ∀ (k : Nat) (e : FileError), e ∈ matchErrorsAux t k ms →
      (∃ i fid, e = FileError.invalidFlsId t i fid) ∨ (∃ i, e = FileError.emptyReason t i) := by
  induction ms with
  | nil => intro k e h; simp [matchErrorsAux] at h
  | cons m ms ih =>
    intro k e h
    simp only [matchErrorsAux, List.mem_append] at h
    rcases h with h | h
    · unfold matchEntryErrors at h
      rw [List.mem_append] at h
      rcases h with h | h
      · by_cases hok : fls_id_ok (m.fls_id.getD ("")) = true
        · simp [hok] at h
        · have hok' : fls_id_ok (m.fls_id.getD ("")) = false := by
            cases hx : fls_id_ok (m.fls_id.getD ("")) with
            | false => rfl
            | true => exact absurd hx hok
          simp only [hok', Bool.false_eq_true, if_false, List.mem_singleton] at h
          exact Or.inl ⟨k, _, h⟩
      · by_cases hrb : reasonBlank m = true
        · simp only [hrb, if_true, List.mem_singleton] at h
          exact Or.inr ⟨k, h⟩
        · simp [hrb] at h
    · exact ih (k + 1) e h

end ValidateTool

namespace ValidateTool

open MergeTool (Decision DecisionMatch)

/-- The spec's claimed FLS-id pattern, from the claim's own words:
`fls_` followed by 10 to 14 alphanumeric characters. -/
def flsIdPatternSpec (s : String) : Bool :=
  match flsRest s with
  | some rest =>
    decide (10 ≤ rest.length) && decide (rest.length ≤ 14) && rest.all (·.isAlphanum)
  | none => false

/-- The claimed pattern is strictly stronger than the one the code checks. -/
theorem flsIdPatternSpec_imp_ok (s : String) (h : flsIdPatternSpec s = true) :
    fls_id_ok s = true := by
  unfold flsIdPatternSpec at h
  unfold fls_id_ok
  cases hrest : flsRest s with
  | none => rw [hrest] at h; cases h
  | some rest =>
    rw [hrest] at h
    simp only [Bool.and_eq_true, decide_eq_true_eq] at h
    obtain ⟨⟨h10, _⟩, hall⟩ := h
    have hne : rest.isEmpty = false := by
      cases rest with
      | nil => simp at h10
      | cons c cs => rfl
    simp [hne, hall]

theorem mem_validate_decision_file (name : String) (d : Decision)
    (schema : Option (Decision → List String)) (batchIds : Option (List String))
    (e : FileError) :
    e ∈ (validate_decision_file name (some d) schema batchIds).2.1 ↔
      (e ∈ (match schema with
            | some check => (check d).map FileError.schemaError
            | none => ([] : List FileError)))
      ∨ (e ∈ (if name = guideline_id_to_filename (d.guideline_id.getD ("")) then []
              else [FileError.filenameMismatch name
                (guideline_id_to_filename (d.guideline_id.getD ("")))]))
      ∨ (e ∈ (match batchIds with
              | some ids =>
                match d.guideline_id with
                | some gid =>
                  if gid ≠ "" && !(ids.contains gid) then [FileError.notInBatch gid]
                  else []
                | none => ([] : List FileError)
              | none => ([] : List FileError)))
      ∨ e ∈ matchErrorsAux ("accepted_matches") 0 d.accepted_matches
      ∨ e ∈ matchErrorsAux ("rejected_matches") 0 d.rejected_matches := by
  simp [validate_decision_file, List.mem_append, or_assoc]

/-- No `invalidFlsId`/`emptyReason` error escapes from the non-loop parts. -/
theorem loop_error_only_from_loops (name : String) (d : Decision)
    (schema : Option (Decision → List String)) (batchIds : Option (List String))
    (e : FileError)
    (hshape : (∃ t i fid, e = FileError.invalidFlsId t i fid)
      ∨ (∃ t i, e = FileError.emptyReason t i))
    (h : e ∈ (validate_decision_file name (some d) schema batchIds).2.1) :
    e ∈ matchErrorsAux ("accepted_matches") 0 d.accepted_matches
      ∨ e ∈ matchErrorsAux ("rejected_matches") 0 d.rejected_matches := by
  rw [mem_validate_decision_file] at h
  rcases h with h | h | h | h | h
  · exfalso
    cases schema with
    | none => simp at h
    | some check =>
      obtain ⟨msg, -, heq⟩ := List.mem_map.mp h
      rcases hshape with ⟨t, i, fid, rfl⟩ | ⟨t, i, rfl⟩ <;> cases heq
  · exfalso
    by_cases hn : name = guideline_id_to_filename (d.guideline_id.getD (""))
    · rw [if_pos hn] at h; cases h
    · rw [if_neg hn] at h
      rw [List.mem_singleton] at h
      rcases hshape with ⟨t, i, fid, rfl⟩ | ⟨t, i, rfl⟩ <;> cases h
  · exfalso
    cases batchIds with
    | none => cases h
    | some ids =>
      cases hgid : d.guideline_id with
      | none => rw [hgid] at h; cases h
      | some gid =>
        rw [hgid] at h
        have h' : e ∈ (if gid ≠ "" && !(ids.contains gid) then [FileError.notInBatch gid]
            else []) := h
        by_cases hc : (gid ≠ "" && !(ids.contains gid)) = true
        · rw [if_pos hc, List.mem_singleton] at h'
          rcases hshape with ⟨t, i, fid, rfl⟩ | ⟨t, i, rfl⟩ <;> cases h'
        · rw [if_neg hc] at h'; cases h'
  · exact Or.inl h
  · exact Or.inr h

/-- Claim C7 as amended.  For every decision file and entry of its
`accepted_matches`/`rejected_matches`, validation reports an
invalid-fls-id error for that entry iff its `fls_id` fails the pattern
actually checked by the code — `fls_[a-zA-Z0-9]+`, with NO length bound —
and an empty-reason error iff the `reason` is missing, empty, or
whitespace-only; an entry passing both checks contributes no such error.
The spec's `fls_[A-Za-z0-9]\x7b10,14\x7d` pattern is strictly stronger
than what the code enforces. -/
theorem validator_entry_error_iff (name : String) (d : Decision)
    (schema : Option (Decision → List String)) (batchIds : Option (List String))
    (i : Nat) (m : DecisionMatch) :
    (d.accepted_matches[i]? = some m →
      ((FileError.invalidFlsId ("accepted_matches") i (m.fls_id.getD ("")) ∈
          (validate_decision_file name (some d) schema batchIds).2.1)
        ↔ fls_id_ok (m.fls_id.getD ("")) = false))
    ∧ (d.accepted_matches[i]? = some m →
      ((FileError.emptyReason ("accepted_matches") i ∈
          (validate_decision_file name (some d) schema batchIds).2.1)
        ↔ reasonBlank m = true))
    ∧ (d.rejected_matches[i]? = some m →
      ((FileError.invalidFlsId ("rejected_matches") i (m.fls_id.getD ("")) ∈
          (validate_decision_file name (some d) schema batchIds).2.1)
        ↔ fls_id_ok (m.fls_id.getD ("")) = false))
    ∧ (d.rejected_matches[i]? = some m →
      ((FileError.emptyReason ("rejected_matches") i ∈
          (validate_decision_file name (some d) schema batchIds).2.1)
        ↔ reasonBlank m = true))
    ∧ (∀ s, flsIdPatternSpec s = true → fls_id_ok s = true) := by
  have hta : ("accepted_matches" : String) ≠ "rejected_matches" := by decide
  refine ⟨?_, ?_, ?_, ?_, flsIdPatternSpec_imp_ok⟩
  · intro hm
    constructor
    · intro h
      rcases loop_error_only_from_loops name d schema batchIds _
        (Or.inl ⟨_, _, _, rfl⟩) h with h' | h'
      · obtain ⟨j, m', hij, hj, -, hok⟩ := (mem_matchErrorsAux_invalid _ _ _ _ _).mp h'
        have hji : j = i := by omega
        subst hji
        rw [hm] at hj
        cases hj
        exact hok
      · exfalso
        rcases matchErrorsAux_types _ _ _ _ h' with ⟨i', fid', heq⟩ | ⟨i', heq⟩
        · injection heq with h1 h2 h3
          exact hta h1
        · cases heq
    · intro hok
      rw [mem_validate_decision_file]
      refine Or.inr (Or.inr (Or.inr (Or.inl ?_)))
      exact (mem_matchErrorsAux_invalid _ _ _ _ _).mpr ⟨i, m, by omega, hm, rfl, hok⟩
  · intro hm
    constructor
    · intro h
      rcases loop_error_only_from_loops name d schema batchIds _
        (Or.inr ⟨_, _, rfl⟩) h with h' | h'
      · obtain ⟨j, m', hij, hj, hrb⟩ := (mem_matchErrorsAux_empty _ _ _ _).mp h'
        have hji : j = i := by omega
        subst hji
        rw [hm] at hj
        cases hj
        exact hrb
      · exfalso
        rcases matchErrorsAux_types _ _ _ _ h' with ⟨i', fid', heq⟩ | ⟨i', heq⟩
        · cases heq
        · injection heq with h1 h2
          exact hta h1
    · intro hrb
      rw [mem_validate_decision_file]
      refine Or.inr (Or.inr (Or.inr (Or.inl ?_)))
      exact (mem_matchErrorsAux_empty _ _ _ _).mpr ⟨i, m, by omega, hm, hrb⟩
  · intro hm
    constructor
    · intro h
      rcases loop_error_only_from_loops name d schema batchIds _
        (Or.inl ⟨_, _, _, rfl⟩) h with h' | h'
      · exfalso
        rcases matchErrorsAux_types _ _ _ _ h' with ⟨i', fid', heq⟩ | ⟨i', heq⟩
        · injection heq with h1 h2 h3
          exact hta h1.symm
        · cases heq
      · obtain ⟨j, m', hij, hj, -, hok⟩ := (mem_matchErrorsAux_invalid _ _ _ _ _).mp h'
        have hji : j = i := by omega
        subst hji
        rw [hm] at hj
        cases hj
        exact hok
    · intro hok
      rw [mem_validate_decision_file]
      refine Or.inr (Or.inr (Or.inr (Or.inr ?_)))
      exact (mem_matchErrorsAux_invalid _ _ _ _ _).mpr ⟨i, m, by omega, hm, rfl, hok⟩
  · intro hm
    constructor
    · intro h
      rcases loop_error_only_from_loops name d schema batchIds _
        (Or.inr ⟨_, _, rfl⟩) h with h' | h'
      · exfalso
        rcases matchErrorsAux_types _ _ _ _ h' with ⟨i', fid', heq⟩ | ⟨i', heq⟩
        · cases heq
        · injection heq with h1 h2
          exact hta h1.symm
      · obtain ⟨j, m', hij, hj, hrb⟩ := (mem_matchErrorsAux_empty _ _ _ _).mp h'
        have hji : j = i := by omega
        subst hji
        rw [hm] at hj
        cases hj
        exact hrb
    · intro hrb
      rw [mem_validate_decision_file]
      refine Or.inr (Or.inr (Or.inr (Or.inr ?_)))
      exact (mem_matchErrorsAux_empty _ _ _ _).mpr ⟨i, m, by omega, hm, hrb⟩

/-- Claim C7 counterexample.  `fls_abc` does not match the claimed pattern
`fls_[A-Za-z0-9]\x7b10,14\x7d` (the alphanumeric run is too short), yet the
validator accepts the file without a single error: the code checks
`fls_[a-zA-Z0-9]+` with no length bound. -/
theorem validator_accepts_short_fls_id :
    validate_decision_file ("Rule_1.1.json")
      (some { guideline_id := some ("Rule 1.1"), decision := some ("accept_existing"),
              confidence := none, fls_rationale_type := none,
              accepted_matches := [{ fls_id := some ("fls_abc"), reason := some ("ok") }],
              rejected_matches := [], notes := none,
              proposed_applicability_change := none })
      none none
      = (true, [],
         some { guideline_id := some ("Rule 1.1"), decision := some ("accept_existing"),
                confidence := none, fls_rationale_type := none,
                accepted_matches := [{ fls_id := some ("fls_abc"), reason := some ("ok") }],
                rejected_matches := [], notes := none,
                proposed_applicability_change := none })
    ∧ flsIdPatternSpec ("fls_abc") = false := by
  constructor
  · decide
  · decide

/-- Witness for `validator_entry_error_iff` at a concrete file whose single
accepted match has an ill-formed id (`fls_!`) and a whitespace reason. -/
theorem validator_entry_error_iff_witness :
    (FileError.invalidFlsId ("accepted_matches") 0 ("fls_!") ∈
      (validate_decision_file ("Rule_1.1.json")
        (some { guideline_id := some ("Rule 1.1"), decision := none,
                confidence := none, fls_rationale_type := none,
                accepted_matches := [{ fls_id := some ("fls_!"), reason := some (" ") }],
                rejected_matches := [], notes := none,
                proposed_applicability_change := none })
        none none).2.1)
    ∧ (FileError.emptyReason ("accepted_matches") 0 ∈
      (validate_decision_file ("Rule_1.1.json")
        (some { guideline_id := some ("Rule 1.1"), decision := none,
                confidence := none, fls_rationale_type := none,
                accepted_matches := [{ fls_id := some ("fls_!"), reason := some (" ") }],
                rejected_matches := [], notes := none,
                proposed_applicability_change := none })
        none none).2.1) := by
  constructor
  · exact ((validator_entry_error_iff ("Rule_1.1.json") _ none none 0
      { fls_id := some ("fls_!"), reason := some (" ") }).1 (by decide)).mpr (by decide)
  · exact ((validator_entry_error_iff ("Rule_1.1.json") _ none none 0
      { fls_id := some ("fls_!"), reason := some (" ") }).2.1 (by decide)).mpr (by decide)

end ValidateTool

namespace ValidateTool

open MergeTool

/-- Claim C3 counterexample.  A decisions directory holding
`Rule_10.1.json` and a renamed copy `Rule_10_1_copy.json`, both with
`guideline_id` `"Rule 10.1"`: the merge tool performs NO duplicate
detection — it accepts the correctly-named file as valid (flagging the
copy only for a filename mismatch) and merges ONE guideline from the pair
into the report, not zero. -/
theorem merge_duplicate_pair_counterexample :
    (MergeTool.load_decision_files
        [("Rule_10.1.json", some
           { guideline_id := some ("Rule 10.1"), decision := some ("accept_existing"),
             confidence := none, fls_rationale_type := none, accepted_matches := [],
             rejected_matches := [], notes := none,
             proposed_applicability_change := none }),
         ("Rule_10_1_copy.json", some
           { guideline_id := some ("Rule 10.1"), decision := some ("accept_existing"),
             confidence := none, fls_rationale_type := none, accepted_matches := [],
             rejected_matches := [], notes := none,
             proposed_applicability_change := none })]
        none false
      = ([{ guideline_id := some ("Rule 10.1"), decision := some ("accept_existing"),
            confidence := none, fls_rationale_type := none, accepted_matches := [],
            rejected_matches := [], notes := none,
            proposed_applicability_change := none }],
         [("Rule_10_1_copy.json",
           [MergeTool.filenameMismatchMsg ("Rule_10_1_copy.json") ("Rule_10.1.json")])]))
    ∧ ((MergeTool.merge_decisions_into_report
        { guidelines := [{ guideline_id := some ("Rule 10.1"),
                           verification_decision := none, extra := 0 }],
          applicability_changes := [], summary := none, extra := 0 }
        [{ guideline_id := some ("Rule 10.1"), decision := some ("accept_existing"),
           confidence := none, fls_rationale_type := none, accepted_matches := [],
           rejected_matches := [], notes := none,
           proposed_applicability_change := none }]).2.1 = 1) := by
  constructor
  · decide
  · decide

/-- Claim C3 as amended.  For the `Rule 10.1` duplicate pair: the merge
tool reports only a filename-mismatch error for the renamed copy and merges
exactly one guideline (from the correctly named file); duplicate detection
lives solely in the standalone decisions validator, whose directory pass
reports exactly one duplicate-guideline error — attached to the copy's
error entry and naming the original file — while still counting
`Rule_10.1.json` itself as valid. -/
theorem duplicate_pair_amended :
    (MergeTool.runMerge
        { guidelines := [{ guideline_id := some ("Rule 10.1"),
                           verification_decision := none, extra := 0 }],
          applicability_changes := [], summary := none, extra := 0 }
        [("Rule_10.1.json", some
           { guideline_id := some ("Rule 10.1"), decision := some ("accept_existing"),
             confidence := none, fls_rationale_type := none, accepted_matches := [],
             rejected_matches := [], notes := none,
             proposed_applicability_change := none }),
         ("Rule_10_1_copy.json", some
           { guideline_id := some ("Rule 10.1"), decision := some ("accept_existing"),
             confidence := none, fls_rationale_type := none, accepted_matches := [],
             rejected_matches := [], notes := none,
             proposed_applicability_change := none })]
        none false false
      = .completed
          [("Rule_10_1_copy.json",
            [MergeTool.filenameMismatchMsg ("Rule_10_1_copy.json") ("Rule_10.1.json")])]
          { guidelines := [{ guideline_id := some ("Rule 10.1"),
                             verification_decision := some
                               { decision := some ("accept_existing"), confidence := none,
                                 fls_rationale_type := none, accepted_matches := [],
                                 rejected_matches := [], notes := none,
                                 proposed_applicability_change := none },
                             extra := 0 }],
            applicability_changes := [],
            summary := some { total_guidelines := 1, verified_count := 1,
                              applicability_changes_proposed := 0,
                              applicability_changes_approved := 0 },
            extra := 0 }
          true 1 0 [])
    ∧ (validate_decisions_directory
        [("Rule_10.1.json", some
           { guideline_id := some ("Rule 10.1"), decision := some ("accept_existing"),
             confidence := none, fls_rationale_type := none, accepted_matches := [],
             rejected_matches := [], notes := none,
             proposed_applicability_change := none }),
         ("Rule_10_1_copy.json", some
           { guideline_id := some ("Rule 10.1"), decision := some ("accept_existing"),
             confidence := none, fls_rationale_type := none, accepted_matches := [],
             rejected_matches := [], notes := none,
             proposed_applicability_change := none })]
        none none
      = (1, 1,
         [("Rule_10_1_copy.json",
           [FileError.filenameMismatch ("Rule_10_1_copy.json") ("Rule_10.1.json"),
            FileError.duplicateGuideline ("Rule 10.1") ("Rule_10.1.json")])],
         ["Rule 10.1"])) := by
  constructor
  · decide
  · decide

end ValidateTool

namespace ReviewTool

/-! ## Embedding of `standards/analysis/review.py` -/

/-- A per-context human decision `{decision, reason}` on an FLS id. -/
structure FlsDecisionRec where
  decision : Option String
  reason : Option String
deriving DecidableEq

/-- One entry of `human_review.fls_removals` / `fls_additions`. -/
structure FlsItem where
  contexts : List String
  title : Option String
  category : Option Int
  decisions : List (String × FlsDecisionRec)
deriving DecidableEq

/-- A singleton aspect decision (`categorization`, `add6_divergence`,
`specificity`). -/
structure AspectDecision where
  decision : Option String
  reason : Option String
deriving DecidableEq

/-- The `human_review` section of an outlier-analysis file. -/
structure HumanReview where
  overall_status : String
  reviewed_at : Option String
  categorization : Option AspectDecision
  fls_removals : List (String × FlsItem)
  fls_additions : List (String × FlsItem)
  add6_divergence : Option AspectDecision
  specificity : Option AspectDecision
  notes : Option String
deriving DecidableEq

/-- `create_human_review_section`. -/
def create_human_review_section : HumanReview :=
  { overall_status := "pending", reviewed_at := none, categorization := none
    fls_removals := [], fls_additions := [], add6_divergence := none
    specificity := none, notes := none }

/-- One `per_id` entry of the LLM analysis (the fields the review tool
reads). -/
structure LlmPerIdInfo where
  contexts : List String
  title : Option String
  category : Option Int
deriving DecidableEq

structure LlmPerIdBlock where
  per_id : Option (List (String × LlmPerIdInfo))
deriving DecidableEq

/-- The `llm_analysis` dict (the parts the review tool reads). -/
structure LlmAnalysis where
  fls_removals : Option LlmPerIdBlock
  fls_additions : Option LlmPerIdBlock
deriving DecidableEq

/-- `llm_analysis.get(aspect, {}).get("per_id", {})`. -/
def llmPerIdOf (b : Option LlmPerIdBlock) : List (String × LlmPerIdInfo) :=
  match b with
  | none => []
  | some blk => blk.per_id.getD []

/-- One context's comparison record (the fields the review tool reads). -/
structure RCtxComp where
  fls_removed : List String
  fls_added : List String
deriving DecidableEq

structure ReviewComparison where
  all_rust : RCtxComp
  safe_rust : RCtxComp
deriving DecidableEq

/-- `decisions.get(ctx, {}).get("decision")` is truthy. -/
def ctxDecided (item : FlsItem) (ctx : String) : Bool :=
  match assocFind item.decisions ctx with
  | some rec => truthyStr rec.decision
  | none => false

/-- Context slots contributed by a removals/additions dict. -/
def flsSlotCount (items : List (String × FlsItem)) : Nat :=
  (items.map (fun p => p.2.contexts.length)).sum

/-- Undecided context slots of a removals/additions dict. -/
def flsPendingCount (items : List (String × FlsItem)) : Nat :=
  (items.map (fun p => (p.2.contexts.filter (fun ctx => !(ctxDecided p.2 ctx))).length)).sum

/-- The `total_aspects` counter of `compute_overall_status`. -/
def totalAspects (human_review : HumanReview) (flags : Flags) : Nat :=
  (if flags.rationale_type_changed || flags.batch_pattern_outlier then 1 else 0)
  + flsSlotCount human_review.fls_removals
  + flsSlotCount human_review.fls_additions
  + (if flags.applicability_differs_from_add6
        || flags.adjusted_category_differs_from_add6 then 1 else 0)
  + (if flags.specificity_decreased then 1 else 0)

/-- The `pending_aspects` counter of `compute_overall_status`. -/
def pendingAspects (human_review : HumanReview) (flags : Flags) : Nat :=
  (if (flags.rationale_type_changed || flags.batch_pattern_outlier)
      && human_review.categorization.isNone then 1 else 0)
  + flsPendingCount human_review.fls_removals
  + flsPendingCount human_review.fls_additions
  + (if (flags.applicability_differs_from_add6
        || flags.adjusted_category_differs_from_add6)
      && human_review.add6_divergence.isNone then 1 else 0)
  + (if flags.specificity_decreased && human_review.specificity.isNone then 1 else 0)

/-- `compute_overall_status` (the `llm_analysis` argument is taken but never
read, as in the source). -/
def compute_overall_status (human_review : HumanReview) (flags : Flags)
    (llm_analysis : LlmAnalysis) : String :=
  if totalAspects human_review flags = 0 then "fully_reviewed"
  else if pendingAspects human_review flags = 0 then "fully_reviewed"
  else if pendingAspects human_review flags < totalAspects human_review flags then "partial"
  else "pending"

/-- The first loops of `initialize_fls_structures`: add every LLM `per_id`
entry that is not yet tracked. -/
def addLlmItems (items : List (String × FlsItem))
    (perId : List (String × LlmPerIdInfo)) : List (String × FlsItem) :=
  perId.foldl
    (fun acc p =>
      if assocContains acc p.1 then acc
      else acc ++ [(p.1, { contexts := p.2.contexts, title := p.2.title
                           category := p.2.category, decisions := [] })])
    items

/-- The comparison loops of `initialize_fls_structures`: add ids from one
context's removed/added list, or extend an existing entry's contexts. -/
def addCompIds (items : List (String × FlsItem)) (ctx : String) (ids : List String) :
    List (String × FlsItem) :=
  ids.foldl
    (fun acc fid =>
      if assocContains acc fid then
        assocUpdate acc fid
          (fun item =>
            if ctx ∈ item.contexts then item
            else { item with contexts := item.contexts ++ [ctx] })
      else acc ++ [(fid, { contexts := [ctx], title := none, category := none
                           decisions := [] })])
    items

/-- `initialize_fls_structures`. -/
def initialize_fls_structures (human_review : HumanReview)
    (llm_analysis : LlmAnalysis) (comparison : ReviewComparison) : HumanReview :=
  let rem1 := addLlmItems human_review.fls_removals (llmPerIdOf llm_analysis.fls_removals)
  let rem2 := addCompIds rem1 ("all_rust") comparison.all_rust.fls_removed
  let rem3 := addCompIds rem2 ("safe_rust") comparison.safe_rust.fls_removed
  let add1 := addLlmItems human_review.fls_additions (llmPerIdOf llm_analysis.fls_additions)
  let add2 := addCompIds add1 ("all_rust") comparison.all_rust.fls_added
  let add3 := addCompIds add2 ("safe_rust") comparison.safe_rust.fls_added
  { human_review with fls_removals := rem3, fls_additions := add3 }

def ACCEPT_REASON : String := "Accepted per LLM recommendation"

def acceptFlsRec : FlsDecisionRec :=
  { decision := some ("accept"), reason := some ACCEPT_REASON }

def acceptAspect : AspectDecision :=
  { decision := some ("accept"), reason := some ACCEPT_REASON }

/-- The removal/addition loop of `_accept_all` on one item. -/
def fillItemAccept (item : FlsItem) : FlsItem :=
  { item with decisions :=
      item.contexts.foldl (fun d ctx => assocSet d ctx acceptFlsRec) item.decisions }

/-- `_accept_all` (the `llm_analysis` argument is taken but never read). -/
def accept_all (human_review : HumanReview) (flags : Flags)
    (llm_analysis : LlmAnalysis) : HumanReview :=
  { human_review with
    categorization :=
      if flags.rationale_type_changed || flags.batch_pattern_outlier then some acceptAspect
      else human_review.categorization
    fls_removals := human_review.fls_removals.map (fun p => (p.1, fillItemAccept p.2))
    fls_additions := human_review.fls_additions.map (fun p => (p.1, fillItemAccept p.2))
    specificity :=
      if flags.specificity_decreased then some acceptAspect else human_review.specificity
    add6_divergence :=
      if flags.applicability_differs_from_add6
          || flags.adjusted_category_differs_from_add6 then some acceptAspect
      else human_review.add6_divergence }

end ReviewTool

namespace ReviewTool

/-! ### Claim C5: the status is a pure function of slot coverage -/

/-- Decided context slots of a removals/additions dict. -/
def flsDecidedCount (items : List (String × FlsItem)) : Nat :=
  (items.map (fun p => (p.2.contexts.filter (fun ctx => ctxDecided p.2 ctx)).length)).sum

/-- Required decision slots, as the spec words them: one per applicable
aspect (categorization when `rationale_type_changed` or
`batch_pattern_outlier`, ADD-6 when either divergence flag, specificity
when `specificity_decreased`) plus one per tracked `(fls_id, context)`
removal/addition pair. -/
def requiredSlots (human_review : HumanReview) (flags : Flags) : Nat :=
  flsSlotCount human_review.fls_removals
  + flsSlotCount human_review.fls_additions
  + (if flags.rationale_type_changed || flags.batch_pattern_outlier then 1 else 0)
  + (if flags.applicability_differs_from_add6
        || flags.adjusted_category_differs_from_add6 then 1 else 0)
  + (if flags.specificity_decreased then 1 else 0)

/-- Required slots carrying a decision (a present aspect record; for an
`(fls_id, context)` slot a truthy `decision` value — a `""` decision counts
as absent, matching Python truthiness). -/
def decidedSlots (human_review : HumanReview) (flags : Flags) : Nat :=
  flsDecidedCount human_review.fls_removals
  + flsDecidedCount human_review.fls_additions
  + (if (flags.rationale_type_changed || flags.batch_pattern_outlier)
        && human_review.categorization.isSome then 1 else 0)
  + (if (flags.applicability_differs_from_add6
        || flags.adjusted_category_differs_from_add6)
        && human_review.add6_divergence.isSome then 1 else 0)
  + (if flags.specificity_decreased && human_review.specificity.isSome then 1 else 0)

/-- The claim's three-way classification by coverage: every required slot
decided (trivially so with zero slots) ⇒ fully_reviewed; some but not all ⇒
partial; none ⇒ pending. -/
def statusOfCoverage (required decided : Nat) : String :=
  if decided = required then "fully_reviewed"
  else if decided ≠ 0 then "partial"
  else "pending"

theorem length_filter_split {α : Type} (p : α → Bool) (l : List α) :
    (l.filter p).length + (l.filter (fun a => !(p a))).length = l.length := by
  induction l with
  | nil => rfl
  | cons a as ih =>
    cases h : p a <;> simp [List.filter_cons, h, Nat.succ_eq_add_one] <;> omega

theorem flsCounts_split (items : List (String × FlsItem)) :
    flsDecidedCount items + flsPendingCount items = flsSlotCount items := by
  induction items with
  | nil => rfl
  | cons p ps ih =>
    unfold flsDecidedCount flsPendingCount flsSlotCount at *
    simp only [List.map_cons, List.sum_cons]
    have hsplit := length_filter_split (fun ctx => ctxDecided p.2 ctx) p.2.contexts
    omega

/-- Claim C5.  `compute_overall_status` is exactly the pure coverage
classification: it returns `fully_reviewed` iff every required decision
slot (one per applicable aspect plus one per tracked `(fls_id, context)`
pair) carries a decision — trivially so when there are zero slots —
`partial` iff some but not all slots are decided, and `pending` iff none
is; no explicit transition is involved. -/
theorem compute_overall_status_eq_coverage (human_review : HumanReview) (flags : Flags)
    (llm_analysis : LlmAnalysis) :
    compute_overall_status human_review flags llm_analysis
      = statusOfCoverage (requiredSlots human_review flags)
          (decidedSlots human_review flags) := by
  have hcat : (if (flags.rationale_type_changed || flags.batch_pattern_outlier)
        && human_review.categorization.isNone then 1 else 0)
      + (if (flags.rationale_type_changed || flags.batch_pattern_outlier)
        && human_review.categorization.isSome then 1 else 0)
      = (if flags.rationale_type_changed || flags.batch_pattern_outlier then 1 else 0) := by
    cases hg : (flags.rationale_type_changed || flags.batch_pattern_outlier) <;>
      cases hc : human_review.categorization <;> simp [hg, hc]
  have hadd6 : (if (flags.applicability_differs_from_add6
        || flags.adjusted_category_differs_from_add6)
        && human_review.add6_divergence.isNone then 1 else 0)
      + (if (flags.applicability_differs_from_add6
        || flags.adjusted_category_differs_from_add6)
        && human_review.add6_divergence.isSome then 1 else 0)
      = (if flags.applicability_differs_from_add6
          || flags.adjusted_category_differs_from_add6 then 1 else 0) := by
    cases hg : (flags.applicability_differs_from_add6
        || flags.adjusted_category_differs_from_add6) <;>
      cases hc : human_review.add6_divergence <;> simp [hg, hc]
  have hspec : (if flags.specificity_decreased
        && human_review.specificity.isNone then 1 else 0)
      + (if flags.specificity_decreased
        && human_review.specificity.isSome then 1 else 0)
      = (if flags.specificity_decreased then 1 else 0) := by
    cases hg : flags.specificity_decreased <;>
      cases hc : human_review.specificity <;> simp [hg, hc]
  have hrem := flsCounts_split human_review.fls_removals
  have haddl := flsCounts_split human_review.fls_additions
  have htot : totalAspects human_review flags = requiredSlots human_review flags := by
    unfold totalAspects requiredSlots
    omega
  have hpd : pendingAspects human_review flags + decidedSlots human_review flags
      = requiredSlots human_review flags := by
    unfold pendingAspects decidedSlots requiredSlots
    omega
  unfold compute_overall_status statusOfCoverage
  rw [htot]
  split_ifs <;> first | rfl | omega

/-! ### Claim C6: the accept-all shortcut fills every slot -/

theorem fillItemAccept_decided (item : FlsItem) (ctx : String)
    (h : ctx ∈ item.contexts) :
    assocFind (fillItemAccept item).decisions ctx = some acceptFlsRec := by
  unfold fillItemAccept
  exact assocFind_foldl_assocSet item.contexts acceptFlsRec item.decisions ctx h

theorem flsPendingCount_fill (items : List (String × FlsItem)) :
    flsPendingCount (items.map (fun p => (p.1, fillItemAccept p.2))) = 0 := by
  induction items with
  | nil => rfl
  | cons p ps ih =>
    unfold flsPendingCount at *
    simp only [List.map_cons, List.sum_cons, List.map_map]
    have hflt : (fillItemAccept p.2).contexts.filter
        (fun ctx => !(ctxDecided (fillItemAccept p.2) ctx)) = [] := by
      rw [List.filter_eq_nil_iff]
      intro ctx hc
      have hctx : ctx ∈ p.2.contexts := hc
      rw [show ctxDecided (fillItemAccept p.2) ctx = true from ?_]
      · simp
      · unfold ctxDecided
        rw [fillItemAccept_decided p.2 ctx hctx]
        rfl
    rw [hflt]
    simpa using ih

/-- Claim C6.  On any outlier analysis whose `human_review` was initialized
from flags, LLM per-id data and comparison data, the accept-all shortcut
fills every required decision slot with decision `accept` and reason
`Accepted per LLM recommendation`, and the recomputed overall status is
`fully_reviewed` regardless of how many aspects were applicable. -/
theorem accept_all_fully_reviewed (human_review : HumanReview)
    (llm_analysis : LlmAnalysis) (comparison : ReviewComparison) (flags : Flags) :
    (compute_overall_status
        (accept_all (initialize_fls_structures human_review llm_analysis comparison)
          flags llm_analysis) flags llm_analysis = "fully_reviewed")
    ∧ (∀ p ∈ (accept_all (initialize_fls_structures human_review llm_analysis comparison)
          flags llm_analysis).fls_removals, ∀ ctx ∈ p.2.contexts,
        assocFind p.2.decisions ctx = some acceptFlsRec)
    ∧ (∀ p ∈ (accept_all (initialize_fls_structures human_review llm_analysis comparison)
          flags llm_analysis).fls_additions, ∀ ctx ∈ p.2.contexts,
        assocFind p.2.decisions ctx = some acceptFlsRec)
    ∧ ((flags.rationale_type_changed || flags.batch_pattern_outlier) = true →
        (accept_all (initialize_fls_structures human_review llm_analysis comparison)
          flags llm_analysis).categorization = some acceptAspect)
    ∧ ((flags.applicability_differs_from_add6
          || flags.adjusted_category_differs_from_add6) = true →
        (accept_all (initialize_fls_structures human_review llm_analysis comparison)
          flags llm_analysis).add6_divergence = some acceptAspect)
    ∧ (flags.specificity_decreased = true →
        (accept_all (initialize_fls_structures human_review llm_analysis comparison)
          flags llm_analysis).specificity = some acceptAspect) := by
  set hr0 := initialize_fls_structures human_review llm_analysis comparison with hhr0
  set hr1 := accept_all hr0 flags llm_analysis with hhr1
  have hcat : (flags.rationale_type_changed || flags.batch_pattern_outlier) = true →
      hr1.categorization = some acceptAspect := by
    intro hg
    rw [hhr1]
    unfold accept_all
    simp [hg]
  have hadd6 : (flags.applicability_differs_from_add6
        || flags.adjusted_category_differs_from_add6) = true →
      hr1.add6_divergence = some acceptAspect := by
    intro hg
    rw [hhr1]
    unfold accept_all
    simp [hg]
  have hspec : flags.specificity_decreased = true →
      hr1.specificity = some acceptAspect := by
    intro hg
    rw [hhr1]
    unfold accept_all
    simp [hg]
  have hpend : pendingAspects hr1 flags = 0 := by
    unfold pendingAspects
    have h1 : (if (flags.rationale_type_changed || flags.batch_pattern_outlier)
        && hr1.categorization.isNone then 1 else 0) = 0 := by
      cases hg : (flags.rationale_type_changed || flags.batch_pattern_outlier) with
      | false => simp [hg]
      | true => rw [hcat hg]; simp
    have h2 : (if (flags.applicability_differs_from_add6
        || flags.adjusted_category_differs_from_add6)
        && hr1.add6_divergence.isNone then 1 else 0) = 0 := by
      cases hg : (flags.applicability_differs_from_add6
          || flags.adjusted_category_differs_from_add6) with
      | false => simp [hg]
      | true => rw [hadd6 hg]; simp
    have h3 : (if flags.specificity_decreased && hr1.specificity.isNone then 1 else 0)
        = 0 := by
      cases hg : flags.specificity_decreased with
      | false => simp [hg]
      | true => rw [hspec hg]; simp
    have h4 : flsPendingCount hr1.fls_removals = 0 := by
      rw [hhr1]
      unfold accept_all
      exact flsPendingCount_fill _
    have h5 : flsPendingCount hr1.fls_additions = 0 := by
      rw [hhr1]
      unfold accept_all
      exact flsPendingCount_fill _
    omega
  refine ⟨?_, ?_, ?_, hcat, hadd6, hspec⟩
  · unfold compute_overall_status
    rw [hpend]
    split_ifs <;> first | rfl | omega
  · intro p hp ctx hctx
    rw [hhr1] at hp
    unfold accept_all at hp
    simp only [List.mem_map] at hp
    obtain ⟨q, hq, rfl⟩ := hp
    exact fillItemAccept_decided q.2 ctx hctx
  · intro p hp ctx hctx
    rw [hhr1] at hp
    unfold accept_all at hp
    simp only [List.mem_map] at hp
    obtain ⟨q, hq, rfl⟩ := hp
    exact fillItemAccept_decided q.2 ctx hctx

/-- Witness for `accept_all_fully_reviewed` at a concrete analysis: one
removed id from the comparison, all aspect flags set. -/
theorem accept_all_fully_reviewed_witness :
    (compute_overall_status
      (accept_all
        (initialize_fls_structures create_human_review_section
          { fls_removals := none, fls_additions := none }
          { all_rust := { fls_removed := ["fls_aaaaaaaaaa"], fls_added := [] }
            safe_rust := { fls_removed := [], fls_added := [] } })
        { fls_removed := true, fls_added := false, rationale_type_changed := true
          applicability_differs_from_add6 := true
          adjusted_category_differs_from_add6 := false, specificity_decreased := true
          batch_pattern_outlier := false, missing_analysis_summary := false
          missing_search_tools := false, multi_dimension_outlier := true }
        { fls_removals := none, fls_additions := none })
      { fls_removed := true, fls_added := false, rationale_type_changed := true
        applicability_differs_from_add6 := true
        adjusted_category_differs_from_add6 := false, specificity_decreased := true
        batch_pattern_outlier := false, missing_analysis_summary := false
        missing_search_tools := false, multi_dimension_outlier := true }
      { fls_removals := none, fls_additions := none } = "fully_reviewed")
    ∧ ((accept_all
        (initialize_fls_structures create_human_review_section
          { fls_removals := none, fls_additions := none }
          { all_rust := { fls_removed := ["fls_aaaaaaaaaa"], fls_added := [] }
            safe_rust := { fls_removed := [], fls_added := [] } })
        { fls_removed := true, fls_added := false, rationale_type_changed := true
          applicability_differs_from_add6 := true
          adjusted_category_differs_from_add6 := false, specificity_decreased := true
          batch_pattern_outlier := false, missing_analysis_summary := false
          missing_search_tools := false, multi_dimension_outlier := true }
        { fls_removals := none, fls_additions := none }).categorization
      = some acceptAspect) := by
  constructor
  · exact (accept_all_fully_reviewed _ _ _ _).1
  · exact (accept_all_fully_reviewed _ _ _ _).2.2.2.1 (by decide)

end ReviewTool

namespace ReportsTool

/-! ## Embedding of `standards/analysis/reports.py` -/

/-- One per-aspect LLM block as the scorer reads it (`verdict` may be
null). -/
structure AspectBlock where
  verdict : Option String
deriving DecidableEq

/-- The five aspect entries of `llm_analysis` that the scorer reads; a
`none` aspect is a null/absent entry (not a dict, so it scores 0). -/
structure LlmBlocks where
  categorization : Option AspectBlock
  fls_removals : Option AspectBlock
  fls_additions : Option AspectBlock
  add6_divergence : Option AspectBlock
  specificity : Option AspectBlock
deriving DecidableEq

/-- The part of `human_review` the scorer reads. -/
structure HumanReviewStatus where
  overall_status : Option String
deriving DecidableEq

/-- `PRIORITY_WEIGHTS` applied to the flag record: the contribution of
every flag key found in the weight table. -/
def flagsScore (flags : Flags) : Int :=
  (if flags.specificity_decreased then 10 else 0)
  + (if flags.multi_dimension_outlier then 8 else 0)
  + (if flags.rationale_type_changed then 5 else 0)
  + (if flags.fls_removed then 4 else 0)
  + (if flags.applicability_differs_from_add6 then 4 else 0)
  + (if flags.adjusted_category_differs_from_add6 then 3 else 0)
  + (if flags.fls_added then 2 else 0)
  + (if flags.batch_pattern_outlier then 2 else 0)
  + (if flags.missing_analysis_summary then 1 else 0)
  + (if flags.missing_search_tools then 1 else 0)

/-- `LLM_VERDICT_PRIORITY.get(aspect.get("verdict", ""), 0)` for one
aspect. -/
def verdictScore (b : Option AspectBlock) : Int :=
  match b with
  | none => 0
  | some blk =>
    match blk.verdict with
    | some v => if v = "inappropriate" then 10 else if v = "needs_review" then 7 else 0
    | none => 0

def llmScore (llm : Option LlmBlocks) : Int :=
  match llm with
  | none => 0
  | some l =>
    verdictScore l.categorization + verdictScore l.fls_removals
      + verdictScore l.fls_additions + verdictScore l.add6_divergence
      + verdictScore l.specificity

/-- `compute_attention_score` (the status comparison is the source's
`if status == "fully_reviewed": ... elif status == "partial": ...`). -/
def compute_attention_score (flags : Flags) (llm_analysis : Option LlmBlocks)
    (human_review : Option HumanReviewStatus) : Int :=
  let score := flagsScore flags + llmScore llm_analysis
  match human_review with
  | none => score
  | some h =>
    let status := h.overall_status.getD ("pending")
    if status = "fully_reviewed" then max 0 (score - 15)
    else if status = "partial" then max 0 (score - 5)
    else score

/-! ### Claim C8: the score is the claimed weighted-sum formula -/

/-- The claim's weight table, as a literal list of (active?, weight)
pairs. -/
def claimedFlagWeights (flags : Flags) : List (Bool × Int) :=
  [(flags.specificity_decreased, 10), (flags.multi_dimension_outlier, 8),
   (flags.rationale_type_changed, 5), (flags.fls_removed, 4),
   (flags.applicability_differs_from_add6, 4),
   (flags.adjusted_category_differs_from_add6, 3), (flags.fls_added, 2),
   (flags.batch_pattern_outlier, 2), (flags.missing_analysis_summary, 1),
   (flags.missing_search_tools, 1)]

def claimedFlagSum (flags : Flags) : Int :=
  ((claimedFlagWeights flags).map (fun p => if p.1 then p.2 else 0)).sum

/-- The claim's review discount: 15 when fully reviewed, 5 when partially
reviewed, otherwise nothing. -/
def reviewDiscount (human_review : Option HumanReviewStatus) : Int :=
  match human_review with
  | none => 0
  | some h =>
    if h.overall_status.getD ("pending") = "fully_reviewed" then 15
    else if h.overall_status.getD ("pending") = "partial" then 5
    else 0

theorem flagsScore_nonneg (flags : Flags) : 0 ≤ flagsScore flags := by
  unfold flagsScore
  split_ifs <;> omega

theorem verdictScore_nonneg (b : Option AspectBlock) : 0 ≤ verdictScore b := by
  cases b with
  | none => simp [verdictScore]
  | some blk =>
    cases hv : blk.verdict with
    | none => simp [verdictScore, hv]
    | some v =>
      simp only [verdictScore, hv]
      split_ifs <;> omega

theorem llmScore_nonneg (llm : Option LlmBlocks) : 0 ≤ llmScore llm := by
  cases llm with
  | none => simp [llmScore]
  | some l =>
    simp only [llmScore]
    have h1 := verdictScore_nonneg l.categorization
    have h2 := verdictScore_nonneg l.fls_removals
    have h3 := verdictScore_nonneg l.fls_additions
    have h4 := verdictScore_nonneg l.add6_divergence
    have h5 := verdictScore_nonneg l.specificity
    omega

theorem claimedFlagSum_eq (flags : Flags) : claimedFlagSum flags = flagsScore flags := by
  unfold claimedFlagSum claimedFlagWeights flagsScore
  simp only [List.map_cons, List.map_nil, List.sum_cons, List.sum_nil]
  omega

/-- Claim C8.  The attention score equals the claimed formula: the sum of
the fixed priority weights of the set flags, plus the LLM-verdict severity
of each analyzed aspect (inappropriate = 10, needs_review = 7, everything
else 0), minus a discount of 15 when the human-review status is
`fully_reviewed` or 5 when it is `partial`, floored at 0 — and the result
is never negative. -/
theorem attention_score_formula (flags : Flags) (llm_analysis : Option LlmBlocks)
    (human_review : Option HumanReviewStatus) :
    compute_attention_score flags llm_analysis human_review
      = max 0 (claimedFlagSum flags + llmScore llm_analysis
          - reviewDiscount human_review)
    ∧ 0 ≤ compute_attention_score flags llm_analysis human_review := by
  have hbase : 0 ≤ flagsScore flags + llmScore llm_analysis := by
    have h1 := flagsScore_nonneg flags
    have h2 := llmScore_nonneg llm_analysis
    omega
  rw [claimedFlagSum_eq]
  cases human_review with
  | none =>
    simp only [compute_attention_score, reviewDiscount]
    constructor
    · rw [Int.sub_zero, max_eq_right hbase]
    · exact hbase
  | some h =>
    simp only [compute_attention_score, reviewDiscount]
    split_ifs with h1 h2
    · exact ⟨rfl, le_max_left _ _⟩
    · exact ⟨rfl, le_max_left _ _⟩
    · constructor
      · rw [Int.sub_zero, max_eq_right hbase]
      · exact hbase

end ReportsTool

/-- Stable insertion of `a` into a list (before the first element `b` with
`le a b`). -/
def insertLe {α : Type} (le : α → α → Bool) (a : α) : List α → List α
  | [] => [a]
  | b :: bs => if le a b then a :: b :: bs else b :: insertLe le a bs

/-- Stable insertion sort — the model of Python `sorted` / `list.sort`. -/
def insertionSort {α : Type} (le : α → α → Bool) (l : List α) : List α :=
  l.foldr (insertLe le) []

theorem insertLe_ne_nil {α : Type} (le : α → α → Bool) (a : α) (l : List α) :
    insertLe le a l ≠ [] := by
  cases l with
  | nil => simp [insertLe]
  | cons b bs =>
    unfold insertLe
    split_ifs <;> simp

theorem insertionSort_eq_nil_iff {α : Type} (le : α → α → Bool) (l : List α) :
    insertionSort le l = [] ↔ l = [] := by
  cases l with
  | nil => simp [insertionSort]
  | cons a as =>
    simp only [insertionSort, List.foldr_cons]
    constructor
    · intro h
      exact absurd h (insertLe_ne_nil le a _)
    · intro h; cases h

theorem mem_insertLe {α : Type} (le : α → α → Bool) (a x : α) (l : List α) :
    x ∈ insertLe le a l ↔ x = a ∨ x ∈ l := by
  induction l with
  | nil => simp [insertLe]
  | cons b bs ih =>
    unfold insertLe
    split_ifs with h
    · simp [List.mem_cons]
    · simp only [List.mem_cons, ih]
      tauto

theorem mem_insertionSort {α : Type} (le : α → α → Bool) (x : α) (l : List α) :
    x ∈ insertionSort le l ↔ x ∈ l := by
  induction l with
  | nil => simp [insertionSort]
  | cons a as ih =>
    simp only [insertionSort, List.foldr_cons] at *
    rw [mem_insertLe, ih, List.mem_cons]

namespace RecordTool

/-! ## Embedding of `standards/analysis/record.py` -/

/-- One context of the comparison data (the id sets `main` validates). -/
structure RecCtxComp where
  fls_removed : List String
  fls_added : List String
deriving DecidableEq

structure RecComparison where
  all_rust : RecCtxComp
  safe_rust : RecCtxComp
deriving DecidableEq

/-- A match entry as `create_outlier_analysis` reads it. -/
structure RecordMatch where
  fls_id : Option String
  fls_title : Option String
  category : Option Int
  reason : Option String
deriving DecidableEq

structure RecCtxEntry where
  accepted_matches : List RecordMatch
deriving DecidableEq

/-- The mapping side of the comparison data, per context. -/
structure RecDualEntry where
  all_rust : RecCtxEntry
  safe_rust : RecCtxEntry
deriving DecidableEq

/-- One entry of the per-id removal structure built by
`create_outlier_analysis`. -/
structure PerIdRemoval where
  title : Option String
  category : Option Int
  contexts : List String
  original_reason : Option String
  removal_decisions : List (String × String)
deriving DecidableEq

/-- First mapping match with the given `fls_id`, if any. -/
def findMatchInfo (ms : List RecordMatch) (fid : String) : Option RecordMatch :=
  ms.find? (fun m => decide (m.fls_id = some fid))

/-- Track one removed id for one context (add it, or extend its context
list). -/
def addRemovalId (mappingCtx : List RecordMatch) (ctx : String)
    (perId : List (String × PerIdRemoval)) (fid : String) :
    List (String × PerIdRemoval) :=
  if assocContains perId fid then
    assocUpdate perId fid
      (fun item =>
        if ctx ∈ item.contexts then item
        else { item with contexts := item.contexts ++ [ctx] })
  else
    let info := findMatchInfo mappingCtx fid
    perId ++ [(fid, { title := info.bind (·.fls_title), category := info.bind (·.category)
                      contexts := [ctx], original_reason := info.bind (·.reason)
                      removal_decisions := [] })]

/-- The context loops building `fls_removals_per_id`. -/
def buildRemovalsPerId (comparison : RecComparison) (mapping : RecDualEntry) :
    List (String × PerIdRemoval) :=
  let d1 := comparison.all_rust.fls_removed.foldl
    (addRemovalId mapping.all_rust.accepted_matches ("all_rust")) []
  comparison.safe_rust.fls_removed.foldl
    (addRemovalId mapping.safe_rust.accepted_matches ("safe_rust")) d1

/-- Apply one author-supplied `(fls_id, context, justification)` triple.  A
context in which the id was not actually removed only produces a warning:
the decision slot stays empty.  An id that is not tracked at all is
silently ignored. -/
def applyRemovalDetail (perId : List (String × PerIdRemoval))
    (det : String × String × String) : List (String × PerIdRemoval) :=
  if assocContains perId det.1 then
    if det.2.1 = "both" then
      assocUpdate perId det.1
        (fun item =>
          let filled := item.contexts.foldl (fun d c => assocSet d c det.2.2)
            item.removal_decisions
          { item with removal_decisions := filled })
    else
      assocUpdate perId det.1
        (fun item =>
          if det.2.1 ∈ item.contexts then
            { item with removal_decisions :=
                assocSet item.removal_decisions det.2.1 det.2.2 }
          else item)
  else perId

/-- `fls_removals_per_id` after all details are applied. -/
def fls_removals_per_id (comparison : RecComparison) (mapping : RecDualEntry)
    (details : List (String × String × String)) : List (String × PerIdRemoval) :=
  details.foldl applyRemovalDetail (buildRemovalsPerId comparison mapping)

/-- The five optional per-aspect verdict arguments of the CLI. -/
structure Verdicts where
  categorization_verdict : Option String
  fls_removals_verdict : Option String
  fls_additions_verdict : Option String
  add6_divergence_verdict : Option String
  specificity_verdict : Option String
deriving DecidableEq

/-- The validation errors `main` can report before creating an analysis
(messages abstracted to the data they interpolate; the missing-detail
payload is the sorted deduplicated id list the message joins). -/
inductive RecordError where
  | missingCategorizationVerdict
  | missingRemovalsVerdict
  | missingAdditionsVerdict
  | missingAdd6Verdict
  | missingSpecificityVerdict
  | missingRemovalDetails (ids : List String)
  | missingAdditionDetails (ids : List String)
deriving DecidableEq

/-- `all_removed_ids` (as the union of both contexts' lists; deduplication
happens in `missingIds`). -/
def allRemovedIds (c : RecComparison) : List String :=
  c.all_rust.fls_removed ++ c.safe_rust.fls_removed

def allAddedIds (c : RecComparison) : List String :=
  c.all_rust.fls_added ++ c.safe_rust.fls_added

/-- `sorted(all_ids - provided_ids)`. -/
def missingIds (allIds provided : List String) : List String :=
  insertionSort (fun a b => decide (a ≤ b))
    ((allIds.filter (fun x => !(provided.contains x))).dedup)

/-- The flag-conditional verdict checks and per-id coverage checks of
`main` (`validation_errors`), in source order. -/
def record_validation_errors (flags : Flags) (comparison : RecComparison)
    (v : Verdicts) (removalDetails additionDetails : List (String × String × String)) :
    List RecordError :=
  (if (flags.rationale_type_changed || flags.batch_pattern_outlier)
      && v.categorization_verdict.isNone then [RecordError.missingCategorizationVerdict]
   else [])
  ++ (if flags.fls_removed && v.fls_removals_verdict.isNone then
        [RecordError.missingRemovalsVerdict]
      else [])
  ++ (if flags.fls_added && v.fls_additions_verdict.isNone then
        [RecordError.missingAdditionsVerdict]
      else [])
  ++ (if (flags.applicability_differs_from_add6
        || flags.adjusted_category_differs_from_add6)
      && v.add6_divergence_verdict.isNone then [RecordError.missingAdd6Verdict]
      else [])
  ++ (if flags.specificity_decreased && v.specificity_verdict.isNone then
        [RecordError.missingSpecificityVerdict]
      else [])
  ++ (if missingIds (allRemovedIds comparison) (removalDetails.map (·.1)) = [] then []
      else [RecordError.missingRemovalDetails
        (missingIds (allRemovedIds comparison) (removalDetails.map (·.1)))])
  ++ (if missingIds (allAddedIds comparison) (additionDetails.map (·.1)) = [] then []
      else [RecordError.missingAdditionDetails
        (missingIds (allAddedIds comparison) (additionDetails.map (·.1)))])

end RecordTool

namespace RecordTool

theorem missingIds_eq_nil_iff (allIds provided : List String) :
    missingIds allIds provided = [] ↔ ∀ x ∈ allIds, x ∈ provided := by
  unfold missingIds
  rw [insertionSort_eq_nil_iff, List.dedup_eq_nil, List.filter_eq_nil_iff]
  constructor
  · intro h x hx
    have := h x hx
    simpa using this
  · intro h x hx
    simpa using h x hx

set_option maxHeartbeats 1600000 in
/-- Claim C2 as amended.  The validation gate before building an
OutlierAnalysis passes iff every flag-required verdict is supplied and
every fls_id of the Comparison's removed/added sets appears among the
supplied detail triples — coverage is checked per id only, never per
context; a justification given for the wrong context satisfies the gate
(and merely leaves the decision slot empty with a warning).  When an id has
no detail at all, the single error names the id (without any context) and
lists every missing id at once. -/
theorem record_gate_iff (flags : Flags) (comparison : RecComparison) (v : Verdicts)
    (removalDetails additionDetails : List (String × String × String)) :
    (record_validation_errors flags comparison v removalDetails additionDetails = []
      ↔ (((flags.rationale_type_changed || flags.batch_pattern_outlier) = true →
            v.categorization_verdict.isSome = true)
        ∧ (flags.fls_removed = true → v.fls_removals_verdict.isSome = true)
        ∧ (flags.fls_added = true → v.fls_additions_verdict.isSome = true)
        ∧ ((flags.applicability_differs_from_add6
              || flags.adjusted_category_differs_from_add6) = true →
            v.add6_divergence_verdict.isSome = true)
        ∧ (flags.specificity_decreased = true → v.specificity_verdict.isSome = true)
        ∧ (∀ fid ∈ allRemovedIds comparison, fid ∈ removalDetails.map (·.1))
        ∧ (∀ fid ∈ allAddedIds comparison, fid ∈ additionDetails.map (·.1))))
    ∧ (record_validation_errors
        { fls_removed := true, fls_added := false, rationale_type_changed := false
          applicability_differs_from_add6 := false
          adjusted_category_differs_from_add6 := false, specificity_decreased := false
          batch_pattern_outlier := false, missing_analysis_summary := false
          missing_search_tools := false, multi_dimension_outlier := false }
        { all_rust := { fls_removed := ["fls_aaaaaaaaaa"], fls_added := [] }
          safe_rust := { fls_removed := [], fls_added := [] } }
        { categorization_verdict := none, fls_removals_verdict := some ("appropriate")
          fls_additions_verdict := none, add6_divergence_verdict := none
          specificity_verdict := none }
        [] []
      = [RecordError.missingRemovalDetails ["fls_aaaaaaaaaa"]]) := by
  constructor
  · have hc1 : ((if (flags.rationale_type_changed || flags.batch_pattern_outlier)
          && v.categorization_verdict.isNone then [RecordError.missingCategorizationVerdict]
        else []) = [])
        ↔ ((flags.rationale_type_changed || flags.batch_pattern_outlier) = true →
            v.categorization_verdict.isSome = true) := by
      cases hg : (flags.rationale_type_changed || flags.batch_pattern_outlier) <;>
        cases hv : v.categorization_verdict <;> simp [hg, hv]
    have hc2 : ((if flags.fls_removed && v.fls_removals_verdict.isNone then
          [RecordError.missingRemovalsVerdict] else []) = [])
        ↔ (flags.fls_removed = true → v.fls_removals_verdict.isSome = true) := by
      cases hg : flags.fls_removed <;>
        cases hv : v.fls_removals_verdict <;> simp [hg, hv]
    have hc3 : ((if flags.fls_added && v.fls_additions_verdict.isNone then
          [RecordError.missingAdditionsVerdict] else []) = [])
        ↔ (flags.fls_added = true → v.fls_additions_verdict.isSome = true) := by
      cases hg : flags.fls_added <;>
        cases hv : v.fls_additions_verdict <;> simp [hg, hv]
    have hc4 : ((if (flags.applicability_differs_from_add6
            || flags.adjusted_category_differs_from_add6)
          && v.add6_divergence_verdict.isNone then [RecordError.missingAdd6Verdict]
        else []) = [])
        ↔ ((flags.applicability_differs_from_add6
            || flags.adjusted_category_differs_from_add6) = true →
            v.add6_divergence_verdict.isSome = true) := by
      cases hg : (flags.applicability_differs_from_add6
          || flags.adjusted_category_differs_from_add6) <;>
        cases hv : v.add6_divergence_verdict <;> simp [hg, hv]
    have hc5 : ((if flags.specificity_decreased && v.specificity_verdict.isNone then
          [RecordError.missingSpecificityVerdict] else []) = [])
        ↔ (flags.specificity_decreased = true → v.specificity_verdict.isSome = true) := by
      cases hg : flags.specificity_decreased <;>
        cases hv : v.specificity_verdict <;> simp [hg, hv]
    have hm1 : ((if missingIds (allRemovedIds comparison) (removalDetails.map (·.1)) = []
          then []
          else [RecordError.missingRemovalDetails
            (missingIds (allRemovedIds comparison) (removalDetails.map (·.1)))]) = [])
        ↔ (∀ fid ∈ allRemovedIds comparison, fid ∈ removalDetails.map (·.1)) := by
      by_cases hmiss : missingIds (allRemovedIds comparison) (removalDetails.map (·.1)) = []
      · simp only [hmiss, if_pos rfl]
        simpa [hmiss] using (missingIds_eq_nil_iff _ _).mp hmiss
      · rw [if_neg hmiss]
        simp only [List.cons_ne_nil, false_iff]
        intro hcov
        exact hmiss ((missingIds_eq_nil_iff _ _).mpr hcov)
    have hm2 : ((if missingIds (allAddedIds comparison) (additionDetails.map (·.1)) = []
          then []
          else [RecordError.missingAdditionDetails
            (missingIds (allAddedIds comparison) (additionDetails.map (·.1)))]) = [])
        ↔ (∀ fid ∈ allAddedIds comparison, fid ∈ additionDetails.map (·.1)) := by
      by_cases hmiss : missingIds (allAddedIds comparison) (additionDetails.map (·.1)) = []
      · simp only [hmiss, if_pos rfl]
        simpa [hmiss] using (missingIds_eq_nil_iff _ _).mp hmiss
      · rw [if_neg hmiss]
        simp only [List.cons_ne_nil, false_iff]
        intro hcov
        exact hmiss ((missingIds_eq_nil_iff _ _).mpr hcov)
    unfold record_validation_errors
    simp only [List.append_eq_nil]
    rw [hc1, hc2, hc3, hc4, hc5, hm1, hm2]
    simp only [and_assoc]
  · decide

/-- Witness for `record_gate_iff`: at full per-id coverage (even with the
"wrong" context) the gate passes. -/
theorem record_gate_iff_witness :
    record_validation_errors
      { fls_removed := true, fls_added := false, rationale_type_changed := false
        applicability_differs_from_add6 := false
        adjusted_category_differs_from_add6 := false, specificity_decreased := false
        batch_pattern_outlier := false, missing_analysis_summary := false
        missing_search_tools := false, multi_dimension_outlier := false }
      { all_rust := { fls_removed := ["fls_aaaaaaaaaa"], fls_added := [] }
        safe_rust := { fls_removed := [], fls_added := [] } }
      { categorization_verdict := none, fls_removals_verdict := some ("appropriate")
        fls_additions_verdict := none, add6_divergence_verdict := none
        specificity_verdict := none }
      [("fls_aaaaaaaaaa", "safe_rust", "justified")] [] = [] :=
  (record_gate_iff _ _ _ _ _).1.mpr (by decide)

/-- Claim C2 counterexample.  With `fls_removed = ["fls_aaaaaaaaaa"]` in
context `all_rust` only, supplying the justification for the WRONG context
(`safe_rust`) passes the validation gate — the analysis is built and
persisted — while the pair `(fls_aaaaaaaaaa, all_rust)` ends up with no
justification at all (`removal_decisions` stays empty).  So the build is
not rejected "unless every fls_id has a justification for every context in
which it was removed". -/
theorem record_gate_wrong_context_counterexample :
    (record_validation_errors
      { fls_removed := true, fls_added := false, rationale_type_changed := false
        applicability_differs_from_add6 := false
        adjusted_category_differs_from_add6 := false, specificity_decreased := false
        batch_pattern_outlier := false, missing_analysis_summary := false
        missing_search_tools := false, multi_dimension_outlier := false }
      { all_rust := { fls_removed := ["fls_aaaaaaaaaa"], fls_added := [] }
        safe_rust := { fls_removed := [], fls_added := [] } }
      { categorization_verdict := none, fls_removals_verdict := some ("appropriate")
        fls_additions_verdict := none, add6_divergence_verdict := none
        specificity_verdict := none }
      [("fls_aaaaaaaaaa", "safe_rust", "justified")] [] = [])
    ∧ (fls_removals_per_id
        { all_rust := { fls_removed := ["fls_aaaaaaaaaa"], fls_added := [] }
          safe_rust := { fls_removed := [], fls_added := [] } }
        { all_rust := { accepted_matches := [] }
          safe_rust := { accepted_matches := [] } }
        [("fls_aaaaaaaaaa", "safe_rust", "justified")]
      = [("fls_aaaaaaaaaa",
          { title := none, category := none, contexts := ["all_rust"]
            original_reason := none, removal_decisions := [] })]) := by
  constructor
  · decide
  · decide

end RecordTool

namespace ExtractTool

/-! ## Embedding of `standards/analysis/extract.py`, `compute_cross_batch_summary`

The cross-batch aggregation loop and the construction of
`systematic_removals` / `systematic_additions`.  Python dicts are modelled
as insertion-ordered association lists (`assocSet` creates on first touch,
as `defaultdict` does). -/

/-- One context of a guideline's `comparison` as read by the scan
(`g["comparison"][context].get("fls_removed", [])` and `fls_added`). -/
structure XCtxComp where
  fls_removed : List String
  fls_added : List String
deriving DecidableEq

/-- One guideline record of `all_batch_data` (only the fields the
aggregation loop reads). -/
structure XGuideline where
  guideline_id : String
  all_rust : XCtxComp
  safe_rust : XCtxComp
deriving DecidableEq

/-- The `defaultdict` payload
`{"count": 0, "batches": defaultdict(int), "guidelines": []}`. -/
structure FlsAgg where
  count : Nat
  batches : List (Nat × Nat)
  guidelines : List String
deriving DecidableEq

/-- The default entry a `defaultdict` access creates. -/
def emptyAgg : FlsAgg := { count := 0, batches := [], guidelines := [] }

/-- Modelled from the spec: `OUTLIER_THRESHOLDS` lives in
`standards/analysis/shared.py`, which is not among the sources; the spec
gives the systematic-pattern threshold as 2 by default. -/
def OUTLIER_THRESHOLDS_systematic_pattern : Nat := 2

/-- The loop body for one `fls_id` occurrence:
`counts[fls_id]["count"] += 1`, `counts[fls_id]["batches"][batch] += 1`,
and append `gid` to `counts[fls_id]["guidelines"]` if absent. -/
def bumpAgg (batch : Nat) (gid : String) (a : FlsAgg) : FlsAgg :=
  { count := a.count + 1
    batches := assocSet a.batches batch ((assocFind a.batches batch).getD 0 + 1)
    guidelines := if a.guidelines.contains gid then a.guidelines
                  else a.guidelines ++ [gid] }

/-- One `fls_id` occurrence applied to the whole counts dict (the
`defaultdict` creates the entry on first access). -/
def touch (batch : Nat) (gid : String) (m : List (String × FlsAgg))
    (fid : String) : List (String × FlsAgg) :=
  assocSet m fid (bumpAgg batch gid ((assocFind m fid).getD emptyAgg))

/-- `for fls_id in g["comparison"][context].get(..., [])` over one id list. -/
def touchAll (batch : Nat) (gid : String) (m : List (String × FlsAgg))
    (fids : List String) : List (String × FlsAgg) :=
  fids.foldl (touch batch gid) m

/-- The `for context in ["all_rust", "safe_rust"]` loop for one guideline,
on the id list selected by `sel` (`.fls_removed` or `.fls_added`). -/
def touchGuideline (sel : XCtxComp → List String) (batch : Nat)
    (m : List (String × FlsAgg)) (g : XGuideline) : List (String × FlsAgg) :=
  touchAll batch g.guideline_id
    (touchAll batch g.guideline_id m (sel g.all_rust)) (sel g.safe_rust)

/-- The full aggregation loop of `compute_cross_batch_summary` for one of
the two counters (batches in iteration order, guidelines within each). -/
def flsCounts (sel : XCtxComp → List String)
    (all_batch_data : List (Nat × List XGuideline)) : List (String × FlsAgg) :=
  all_batch_data.foldl (fun m bg => bg.2.foldl (touchGuideline sel bg.1) m) []

/-- `fls_removed_counts` after the loop. -/
def fls_removed_counts (all_batch_data : List (Nat × List XGuideline)) :
    List (String × FlsAgg) :=
  flsCounts XCtxComp.fls_removed all_batch_data

/-- `fls_added_counts` after the loop. -/
def fls_added_counts (all_batch_data : List (Nat × List XGuideline)) :
    List (String × FlsAgg) :=
  flsCounts XCtxComp.fls_added all_batch_data

/-- An element of `systematic_removals` / `systematic_additions`. -/
structure SysEntry where
  fls_id : String
  count : Nat
  batches : List (Nat × Nat)
  guidelines : List String
deriving DecidableEq

/-- The comprehension body: entry built from one counts item
(`"guidelines": data["guidelines"][:10]`). -/
def mkSysEntry (p : String × FlsAgg) : SysEntry :=
  { fls_id := p.1, count := p.2.count, batches := p.2.batches
    guidelines := p.2.guidelines.take 10 }

/-- `systematic_removals`: keep items with
`count >= OUTLIER_THRESHOLDS["systematic_pattern"]`, then stable-sort by
count with `reverse=True`. -/
def systematic_removals (all_batch_data : List (Nat × List XGuideline)) :
    List SysEntry :=
  insertionSort (fun a b => decide (b.count ≤ a.count))
    (((fls_removed_counts all_batch_data).filter
        (fun p => decide (OUTLIER_THRESHOLDS_systematic_pattern ≤ p.2.count))).map
      mkSysEntry)

/-- `systematic_additions`, same construction over `fls_added_counts`. -/
def systematic_additions (all_batch_data : List (Nat × List XGuideline)) :
    List SysEntry :=
  insertionSort (fun a b => decide (b.count ≤ a.count))
    (((fls_added_counts all_batch_data).filter
        (fun p => decide (OUTLIER_THRESHOLDS_systematic_pattern ≤ p.2.count))).map
      mkSysEntry)

/-- The report field `"fls_sections_frequently_removed": systematic_removals[:20]`. -/
def fls_sections_frequently_removed
    (all_batch_data : List (Nat × List XGuideline)) : List SysEntry :=
  (systematic_removals all_batch_data).take 20

/-- The report field `"fls_sections_frequently_added": systematic_additions[:20]`. -/
def fls_sections_frequently_added
    (all_batch_data : List (Nat × List XGuideline)) : List SysEntry :=
  (systematic_additions all_batch_data).take 20

/-- Number of occurrences of `fid` in a list of ids. -/
def countOcc (fid : String) : List String → Nat
  | [] => 0
  | x :: xs => (if x = fid then 1 else 0) + countOcc fid xs

/-- What the aggregation loop actually counts for `fid`: one per batch, per
guideline, per context, per list occurrence. -/
def occCount (sel : XCtxComp → List String) (fid : String) :
    List (Nat × List XGuideline) → Nat
  | [] => 0
  | bg :: rest =>
      (bg.2.map (fun g =>
        countOcc fid (sel g.all_rust) + countOcc fid (sel g.safe_rust))).sum
        + occCount sel fid rest

/-- The spec's reading of the counter: the number of DISTINCT guidelines
(across all scanned batches) whose comparison removed `fid` in some
context.  Stated from the spec's words, to be compared with what the code
computes. -/
def removedDistinctGuidelineCount
    (all_batch_data : List (Nat × List XGuideline)) (fid : String) : Nat :=
  ((((all_batch_data.map (fun bg => bg.2)).flatten).filter
      (fun g => g.all_rust.fls_removed.contains fid
        || g.safe_rust.fls_removed.contains fid)).map
    (fun g => g.guideline_id)).dedup.length

/-- The count stored for `fid` (0 when the key is absent). -/
def aggCount (m : List (String × FlsAgg)) (fid : String) : Nat :=
  ((assocFind m fid).getD emptyAgg).count

end ExtractTool

namespace ExtractTool

@[simp] theorem countOcc_nil (fid : String) : countOcc fid [] = 0 := rfl

@[simp] theorem countOcc_cons (fid x : String) (xs : List String) :
    countOcc fid (x :: xs) = (if x = fid then 1 else 0) + countOcc fid xs := rfl

@[simp] theorem occCount_nil (sel : XCtxComp → List String) (fid : String) :
    occCount sel fid [] = 0 := rfl

@[simp] theorem occCount_cons (sel : XCtxComp → List String) (fid : String)
    (bg : Nat × List XGuideline) (rest : List (Nat × List XGuideline)) :
    occCount sel fid (bg :: rest)
      = (bg.2.map (fun g =>
          countOcc fid (sel g.all_rust) + countOcc fid (sel g.safe_rust))).sum
        + occCount sel fid rest := rfl

theorem aggCount_touch (b : Nat) (gid : String) (m : List (String × FlsAgg))
    (fid fid' : String) :
    aggCount (touch b gid m fid) fid'
      = aggCount m fid' + (if fid' = fid then 1 else 0) := by
  by_cases h : fid' = fid
  · subst h
    unfold aggCount touch
    rw [assocFind_assocSet_self]
    simp [bumpAgg]
  · unfold aggCount touch
    rw [assocFind_assocSet_other _ _ _ _ h]
    simp [h]

theorem aggCount_touchAll (b : Nat) (gid : String) (fids : List String) :
    ∀ (m : List (String × FlsAgg)) (fid' : String),
      aggCount (touchAll b gid m fids) fid' = aggCount m fid' + countOcc fid' fids := by
  induction fids with
  | nil => intro m fid'; simp [touchAll, countOcc]
  | cons f fs ih =>
    intro m fid'
    simp only [touchAll, List.foldl_cons] at *
    rw [ih (touch b gid m f) fid', aggCount_touch, countOcc_cons]
    by_cases h : fid' = f
    · subst h; simp; omega
    · have h2 : ¬(f = fid') := fun hh => h hh.symm
      simp [h, h2]

theorem aggCount_touchGuideline (sel : XCtxComp → List String) (b : Nat)
    (m : List (String × FlsAgg)) (g : XGuideline) (fid' : String) :
    aggCount (touchGuideline sel b m g) fid'
      = aggCount m fid' + countOcc fid' (sel g.all_rust)
        + countOcc fid' (sel g.safe_rust) := by
  unfold touchGuideline
  rw [aggCount_touchAll, aggCount_touchAll]

theorem aggCount_guidelineFold (sel : XCtxComp → List String) (b : Nat)
    (gs : List XGuideline) :
    ∀ (m : List (String × FlsAgg)) (fid' : String),
      aggCount (gs.foldl (touchGuideline sel b) m) fid'
        = aggCount m fid' + (gs.map (fun g =>
            countOcc fid' (sel g.all_rust) + countOcc fid' (sel g.safe_rust))).sum := by
  induction gs with
  | nil => intro m fid'; simp
  | cons g gs ih =>
    intro m fid'
    simp only [List.foldl_cons, List.map_cons, List.sum_cons]
    rw [ih, aggCount_touchGuideline]
    omega

theorem aggCount_batchFold (sel : XCtxComp → List String)
    (data : List (Nat × List XGuideline)) :
    ∀ (m : List (String × FlsAgg)) (fid : String),
      aggCount (data.foldl (fun m bg => bg.2.foldl (touchGuideline sel bg.1) m) m) fid
        = aggCount m fid + occCount sel fid data := by
  induction data with
  | nil => intro m fid; simp [occCount]
  | cons bg rest ih =>
    intro m fid
    simp only [List.foldl_cons]
    rw [ih, aggCount_guidelineFold, occCount_cons]
    omega

theorem aggCount_flsCounts (sel : XCtxComp → List String)
    (data : List (Nat × List XGuideline)) (fid : String) :
    aggCount (flsCounts sel data) fid = occCount sel fid data := by
  have h := aggCount_batchFold sel data [] fid
  unfold flsCounts
  rw [h]
  simp [aggCount, assocFind, emptyAgg]

theorem keys_nodup_touchAll (b : Nat) (gid : String) (fids : List String) :
    ∀ (m : List (String × FlsAgg)), (m.map Prod.fst).Nodup →
      ((touchAll b gid m fids).map Prod.fst).Nodup := by
  induction fids with
  | nil => intro m h; exact h
  | cons f fs ih =>
    intro m h
    simp only [touchAll, List.foldl_cons] at *
    exact ih _ (keys_nodup_assocSet _ _ _ h)

theorem keys_nodup_touchGuideline (sel : XCtxComp → List String) (b : Nat)
    (m : List (String × FlsAgg)) (g : XGuideline)
    (h : (m.map Prod.fst).Nodup) :
    ((touchGuideline sel b m g).map Prod.fst).Nodup := by
  unfold touchGuideline
  exact keys_nodup_touchAll _ _ _ _ (keys_nodup_touchAll _ _ _ _ h)

theorem keys_nodup_flsCounts (sel : XCtxComp → List String)
    (data : List (Nat × List XGuideline)) :
    ((flsCounts sel data).map Prod.fst).Nodup := by
  unfold flsCounts
  have hgen : ∀ (d : List (Nat × List XGuideline)) (m : List (String × FlsAgg)),
      (m.map Prod.fst).Nodup →
      ((d.foldl (fun m bg => bg.2.foldl (touchGuideline sel bg.1) m) m).map
        Prod.fst).Nodup := by
    intro d
    induction d with
    | nil => intro m h; exact h
    | cons bg rest ih =>
      intro m h
      simp only [List.foldl_cons]
      apply ih
      have hg : ∀ (gs : List XGuideline) (m' : List (String × FlsAgg)),
          (m'.map Prod.fst).Nodup →
          ((gs.foldl (touchGuideline sel bg.1) m').map Prod.fst).Nodup := by
        intro gs
        induction gs with
        | nil => intro m' h'; exact h'
        | cons g gs ihg =>
          intro m' h'
          simp only [List.foldl_cons]
          exact ihg _ (keys_nodup_touchGuideline _ _ _ _ h')
      exact hg _ _ h
  exact hgen data [] (by simp)

end ExtractTool

namespace ExtractTool

theorem mem_systematicList_iff (sel : XCtxComp → List String)
    (data : List (Nat × List XGuideline)) (fid : String) :
    (∃ e ∈ insertionSort (fun a b => decide (b.count ≤ a.count))
        (((flsCounts sel data).filter
            (fun p => decide (OUTLIER_THRESHOLDS_systematic_pattern ≤ p.2.count))).map
          mkSysEntry), e.fls_id = fid)
      ↔ OUTLIER_THRESHOLDS_systematic_pattern ≤ occCount sel fid data := by
  constructor
  · rintro ⟨e, he, hfid⟩
    rw [mem_insertionSort] at he
    rcases List.mem_map.mp he with ⟨p, hp, hpe⟩
    rcases List.mem_filter.mp hp with ⟨hpm, hpc⟩
    have hpc' : OUTLIER_THRESHOLDS_systematic_pattern ≤ p.2.count :=
      of_decide_eq_true hpc
    have hp1 : p.1 = fid := by rw [← hfid, ← hpe]; rfl
    have hfind : assocFind (flsCounts sel data) fid = some p.2 := by
      apply assocFind_eq_some_of_mem _ _ _ (keys_nodup_flsCounts sel data)
      rw [← hp1]
      exact hpm
    have hcount : aggCount (flsCounts sel data) fid = p.2.count := by
      unfold aggCount
      rw [hfind]
      rfl
    rw [← aggCount_flsCounts sel data fid, hcount]
    exact hpc'
  · intro hocc
    have hagg : OUTLIER_THRESHOLDS_systematic_pattern
        ≤ aggCount (flsCounts sel data) fid := by
      rw [aggCount_flsCounts]
      exact hocc
    cases hf : assocFind (flsCounts sel data) fid with
    | none =>
      exfalso
      unfold aggCount at hagg
      rw [hf] at hagg
      simp [emptyAgg, OUTLIER_THRESHOLDS_systematic_pattern] at hagg
    | some a =>
      have hmem := mem_of_assocFind_eq_some _ _ _ hf
      refine ⟨mkSysEntry (fid, a), ?_, rfl⟩
      rw [mem_insertionSort]
      apply List.mem_map.mpr
      refine ⟨(fid, a), ?_, rfl⟩
      apply List.mem_filter.mpr
      refine ⟨hmem, ?_⟩
      have hcount : aggCount (flsCounts sel data) fid = a.count := by
        unfold aggCount
        rw [hf]
        rfl
      rw [hcount] at hagg
      exact decide_eq_true hagg

theorem count_systematicList (sel : XCtxComp → List String)
    (data : List (Nat × List XGuideline)) (fid : String) :
    ∀ e ∈ insertionSort (fun a b => decide (b.count ≤ a.count))
        (((flsCounts sel data).filter
            (fun p => decide (OUTLIER_THRESHOLDS_systematic_pattern ≤ p.2.count))).map
          mkSysEntry), e.fls_id = fid → e.count = occCount sel fid data := by
  intro e he hfid
  rw [mem_insertionSort] at he
  rcases List.mem_map.mp he with ⟨p, hp, hpe⟩
  rcases List.mem_filter.mp hp with ⟨hpm, _⟩
  have hp1 : p.1 = fid := by rw [← hfid, ← hpe]; rfl
  have hfind : assocFind (flsCounts sel data) fid = some p.2 := by
    apply assocFind_eq_some_of_mem _ _ _ (keys_nodup_flsCounts sel data)
    rw [← hp1]
    exact hpm
  have hcount : p.2.count = occCount sel fid data := by
    rw [← aggCount_flsCounts sel data fid]
    unfold aggCount
    rw [hfind]
    rfl
  rw [← hpe]
  exact hcount

theorem count_ge_systematicList (sel : XCtxComp → List String)
    (data : List (Nat × List XGuideline)) :
    ∀ e ∈ insertionSort (fun a b => decide (b.count ≤ a.count))
        (((flsCounts sel data).filter
            (fun p => decide (OUTLIER_THRESHOLDS_systematic_pattern ≤ p.2.count))).map
          mkSysEntry), OUTLIER_THRESHOLDS_systematic_pattern ≤ e.count := by
  intro e he
  rw [mem_insertionSort] at he
  rcases List.mem_map.mp he with ⟨p, hp, hpe⟩
  rcases List.mem_filter.mp hp with ⟨_, hpc⟩
  have := of_decide_eq_true hpc
  rw [← hpe]
  exact this

end ExtractTool

namespace ExtractTool

/-- A single batch holding a single guideline whose comparison removed
`fls_x` in both contexts. -/
def cexData : List (Nat × List XGuideline) :=
  [(1, [{ guideline_id := "Rule 10.1"
          all_rust := { fls_removed := ["fls_x"], fls_added := [] }
          safe_rust := { fls_removed := ["fls_x"], fls_added := [] } }])]

/-- Claim C9 as amended.  The cross-batch aggregator counts, for each
fls_id, its raw occurrences as a removed (resp. added) match — one per
batch, per guideline, per context, per list occurrence — NOT its
occurrences across distinct guidelines; an fls_id appears in
`systematic_removals` / `systematic_additions` exactly when that raw
occurrence count reaches the systematic-pattern threshold, the surfaced
entry carries that raw count, and every entry of the report's top-20
truncation meets the threshold.  (The threshold constant is spec-modelled
as 2, `analysis/shared.py` being absent from the sources.) -/
theorem systematic_surfaced_iff (data : List (Nat × List XGuideline))
    (fid : String) :
    ((∃ e ∈ systematic_removals data, e.fls_id = fid)
        ↔ OUTLIER_THRESHOLDS_systematic_pattern
            ≤ occCount XCtxComp.fls_removed fid data)
    ∧ ((∃ e ∈ systematic_additions data, e.fls_id = fid)
        ↔ OUTLIER_THRESHOLDS_systematic_pattern
            ≤ occCount XCtxComp.fls_added fid data)
    ∧ (∀ e ∈ systematic_removals data, e.fls_id = fid →
        e.count = occCount XCtxComp.fls_removed fid data)
    ∧ (∀ e ∈ systematic_additions data, e.fls_id = fid →
        e.count = occCount XCtxComp.fls_added fid data)
    ∧ (∀ e ∈ fls_sections_frequently_removed data,
        OUTLIER_THRESHOLDS_systematic_pattern ≤ e.count)
    ∧ (∀ e ∈ fls_sections_frequently_added data,
        OUTLIER_THRESHOLDS_systematic_pattern ≤ e.count) := by
  refine ⟨mem_systematicList_iff XCtxComp.fls_removed data fid,
    mem_systematicList_iff XCtxComp.fls_added data fid,
    count_systematicList XCtxComp.fls_removed data fid,
    count_systematicList XCtxComp.fls_added data fid, ?_, ?_⟩
  · intro e he
    exact count_ge_systematicList XCtxComp.fls_removed data e
      (List.take_subset _ _ he)
  · intro e he
    exact count_ge_systematicList XCtxComp.fls_added data e
      (List.take_subset _ _ he)

/-- Claim C9 counterexample.  One guideline in one batch removes `fls_x`
in BOTH contexts: the aggregator surfaces `fls_x` as a systematic removal
(its occurrence count is 2), although only ONE distinct guideline removed
it — counting "occurrences across distinct guidelines", as the claim
states, would give 1, below the threshold, and `fls_x` would not be
surfaced. -/
theorem systematic_distinct_counterexample :
    (systematic_removals cexData).map (fun e => e.fls_id) = ["fls_x"]
    ∧ removedDistinctGuidelineCount cexData "fls_x" = 1
    ∧ removedDistinctGuidelineCount cexData "fls_x"
        < OUTLIER_THRESHOLDS_systematic_pattern := by
  refine ⟨?_, ?_, ?_⟩ <;> decide

/-- Witness for `systematic_surfaced_iff`: the threshold reached (2 raw
occurrences) puts `fls_x` into `systematic_removals`. -/
theorem systematic_surfaced_iff_witness :
    ∃ e ∈ systematic_removals cexData, e.fls_id = "fls_x" :=
  (systematic_surfaced_iff cexData "fls_x").1.mpr (by decide)

end ExtractTool
